import Mathlib

/-!
Shallow embedding of the dice-notation engine (parser → AST → evaluator
pipeline of `src/parser.c`, `src/eval.c`, `src/dice.c`, `src/trace.c`,
`src/custom_dice.c`, `src/rng.c`, shared header `include/dice.h`).

Modelling conventions:
* machine integers (`int`, `int64_t`) are `Int`; the claims under study do
  not depend on overflow, and C signed division (truncation toward zero)
  is rendered with `Int.tdiv`;
* the arena allocator is modelled as always succeeding (the `arena_used`
  counter exists in the context but evaluation does not track its growth;
  only `dice_context_reset` touches it, as in the claims);
* the pluggable RNG vtable is modelled as a pair of pure functions of the
  call index: any deterministic RNG implementation is a function of how
  many draws happened before and of the argument it receives;
* the single-slot error buffer holds a structured `DiceError` value, one
  constructor per `snprintf` site of the embedded code, instead of the
  formatted C string;
* the trace holds only `TRACE_ATOMIC_ROLL` entries: the live code paths
  never append any other entry kind.
-/

-- ===========================================================================
-- Data model (include/dice.h)
-- ===========================================================================

/-- Binary operators (`dice_binary_op_t`). The comparison operators are also
used as the comparison of conditional selections and rerolls. -/
inductive BinOp where
  | add | sub | mul | div
  | gt | lt | gte | lte | eq | neq
deriving DecidableEq, Repr

/-- Dice operation types (`dice_dice_type_t`). -/
inductive DiceType where
  | basic | exploding | pool | fate | filter | custom
deriving DecidableEq, Repr

/-- `dice_selection_t`.  The `original_syntax` display string of the C struct
is omitted: it is written by the parser but never read by the evaluator. -/
structure Selection where
  count : Int
  select_high : Bool
  is_drop_operation : Bool
  is_conditional : Bool
  comparison_op : BinOp
  comparison_value : Int
  is_reroll : Bool
deriving DecidableEq, Repr

/-- `dice_custom_side_t`. -/
structure CustomSide where
  value : Int
  label : Option String
deriving DecidableEq, Repr

/-- `dice_custom_die_t`. -/
structure CustomDie where
  name : Option String
  sides : List CustomSide
deriving DecidableEq, Repr

/-- `dice_ast_node_t`: tagged union of AST nodes.  `count`/`sides` are
nullable node pointers in C, hence `Option AST` here.  The annotation node
is called `annot`. -/
inductive AST where
  | literal (value : Int)
  | binaryOp (op : BinOp) (left right : AST)
  | diceOp (dice_type : DiceType) (count : Option AST) (sides : Option AST)
      (modifier : Option AST) (selection : Option Selection)
      (custom_name : Option String) (custom_die : Option CustomDie)
  | functionCall (name : String)
  | annot (key value : String) (child : AST)

/-- `dice_policy_t`. -/
structure Policy where
  max_dice_count : Int
  max_sides : Int
  max_explosion_depth : Int
  allow_negative_dice : Bool
  strict_mode : Bool
deriving DecidableEq, Repr

/-- `dice_default_policy` (dice.c). -/
def dice_default_policy : Policy :=
  { max_dice_count := 1000
    max_sides := 1000000
    max_explosion_depth := 10
    allow_negative_dice := false
    strict_mode := false }

/-- One `TRACE_ATOMIC_ROLL` trace entry (`dice_trace_entry_t`). -/
structure TraceEntry where
  sides : Int
  result : Int
  selected : Bool
deriving DecidableEq, Repr

/-- One constructor per error-setting `snprintf` site of the embedded code
(the C code stores a formatted message in a single-slot buffer). -/
inductive DiceError where
  | countNotPositive (count : Int)
  | tooManyDice (count : Int)
  | unknownCustomDie (name : String)
  | customDieNoDefinition
  | customDieNoSides
  | sidesNotPositive (sides : Int)
  | tooManySides (sides : Int)
  | rngError
  | divisionByZero
  | unknownBinaryOp
  | functionCallsNotSupported (name : String)
  | unknownComparisonReroll
  | unknownComparisonConditional
  | rerollLimit (die : Int)
  | invalidSelectionCount (count : Int)
  | emptyCustomDie
  | expectedNumberOrStringInCustomDie
  | expectedCommaOrBraceInCustomDie
  | expectedClosingBraceInCustomDie
  | expectedSidesAfterD
  | failedSelectionCount (op : Char)
  | exprSelectionCountsNotImplemented
  | unknownSelectionOperator (op : Char)
  | expectedComparisonAfterS
  | expectedComparisonAfterR
  | missingComparisonValue
  | expectedNumericValueAfterS
  | expectedNumericValueAfterR
  | failedComparisonValueS
  | failedComparisonValueR
  | expectedClosingParen
  | expectedExpressionAfterOperator
  | expectedPrimary
  | trailingCharacters (rest : String)
deriving DecidableEq, Repr

/-- The RNG vtable (`dice_rng_vtable_t`) with its mutable state abstracted
as a call counter `idx`: `rollF n s` is the value the implementation's
`roll(state, s)` returns on its `n`-th draw, `randF n m` likewise for
`rand(state, m)`.  Both calls advance the same underlying state. -/
structure RNG where
  rollF : Nat → Int → Int
  randF : Nat → Nat → Nat
  idx : Nat

/-- `rng.roll(state, sides)`: draw and advance the state. -/
def RNG.roll (r : RNG) (sides : Int) : Int × RNG :=
  (r.rollF r.idx sides, { r with idx := r.idx + 1 })

/-- `rng.rand(state, max)`: draw and advance the state. -/
def RNG.rand (r : RNG) (max : Nat) : Nat × RNG :=
  (r.randF r.idx max, { r with idx := r.idx + 1 })

/-- `dice_context_t`.  `features` is the feature bitmask; the trace is the
list of appended atomic rolls in order; `error` is the single-slot error
buffer (`none` = `has_error == false`). -/
structure Context where
  policy : Policy
  features : Nat
  trace : List TraceEntry
  error : Option DiceError
  rng : RNG
  registry : List CustomDie
  arena_used : Nat

/-- Setting the error buffer (a `snprintf` into `ctx->error.message`
followed by `ctx->error.has_error = true`). -/
def setError (ctx : Context) (e : DiceError) : Context :=
  { ctx with error := some e }

/-- `trace_atomic_roll_selected` (trace.c): append one atomic-roll entry. -/
def trace_atomic_roll_selected (ctx : Context) (sides result : Int)
    (selected : Bool) : Context :=
  { ctx with trace := ctx.trace ++ [⟨sides, result, selected⟩] }

/-- `trace_atomic_roll` (trace.c): append with `selected = false`. -/
def trace_atomic_roll (ctx : Context) (sides result : Int) : Context :=
  trace_atomic_roll_selected ctx sides result false

/-- `dice_clear_trace` (trace.c). -/
def dice_clear_trace (ctx : Context) : Context :=
  { ctx with trace := [] }

/-- `dice_register_custom_die` (dice.c): append a named die to the registry;
returns the C status code (`-1` on empty side list). -/
def dice_register_custom_die (ctx : Context) (name : String)
    (sides : List CustomSide) : Context × Int :=
  if sides.length = 0 then (ctx, -1)
  else ({ ctx with registry := ctx.registry ++ [⟨some name, sides⟩] }, 0)

/-- `dice_lookup_custom_die` (dice.c): linear scan, first match wins. -/
def dice_lookup_custom_die (ctx : Context) (name : String) : Option CustomDie :=
  ctx.registry.find? (fun d => d.name = some name)

/-- `dice_clear_custom_dice` (dice.c): empty the registry. -/
def dice_clear_custom_dice (ctx : Context) : Context :=
  { ctx with registry := [] }

/-- The FATE die auto-registered by `dice_context_create`. -/
def fateDie : CustomDie :=
  ⟨some "F", [⟨-1, some "-"⟩, ⟨0, some " "⟩, ⟨1, some "+"⟩]⟩

/-- `DICE_FEATURE_FATE` bit. -/
def DICE_FEATURE_FATE : Nat := 8

/-- `dice_context_create` (dice.c): fresh context with default policy and
an empty trace/registry; registers the FATE die `"F"` when the FATE feature
bit is set.  The C function installs a system RNG seeded from the clock;
that RNG is abstracted as the `rng` argument. -/
def dice_context_create (features : Nat) (rng : RNG) : Context :=
  let ctx : Context :=
    { policy := dice_default_policy
      features := features
      trace := []
      error := none
      rng := rng
      registry := []
      arena_used := 0 }
  if features &&& DICE_FEATURE_FATE ≠ 0 then
    (dice_register_custom_die ctx "F" fateDie.sides).1
  else ctx

/-- `dice_context_reset` (dice.c): zero the arena, clear error, trace and
the custom-die registry; policy, features and RNG are kept. -/
def dice_context_reset (ctx : Context) : Context :=
  { ctx with
    arena_used := 0
    error := none
    trace := []
    registry := [] }

/-- `dice_clear_error` (dice.c). -/
def dice_clear_error (ctx : Context) : Context :=
  { ctx with error := none }

/-- `dice_eval_result_t`. -/
structure EvalResult where
  value : Int
  success : Bool
deriving DecidableEq, Repr

-- ===========================================================================
-- Evaluator (eval.c)
-- ===========================================================================

/-- The comparison `switch` of `evaluate_dice_filter`: `none` is the C
`default:` branch (an arithmetic operator reached the comparison switch). -/
def cmpMatch (op : BinOp) (roll : Int) (v : Int) : Option Bool :=
  match op with
  | .gt => some (decide (roll > v))
  | .lt => some (decide (roll < v))
  | .gte => some (decide (roll ≥ v))
  | .lte => some (decide (roll ≤ v))
  | .eq => some (decide (roll = v))
  | .neq => some (decide (roll ≠ v))
  | _ => none

/-- The initial "roll all dice into a buffer" loop of `evaluate_dice_filter`;
`none` signals the `roll < 0` RNG error (the error is set in the context). -/
def rollPool (ctx : Context) (sides : Int) : Nat → Context × Option (List Int)
  | 0 => (ctx, some [])
  | n + 1 =>
    let (r, rng1) := ctx.rng.roll sides
    let ctx1 := { ctx with rng := rng1 }
    if r < 0 then (setError ctx1 .rngError, none)
    else
      match rollPool ctx1 sides n with
      | (ctx2, some rest) => (ctx2, some (r :: rest))
      | (ctx2, none) => (ctx2, none)

/-- The per-die `while (should_reroll && reroll_count < max_rerolls)` loop
of the reroll branch of `evaluate_dice_filter`, with the remaining attempt
budget `fuel = max_rerolls - reroll_count` explicit so that the recursion is
structural: `fuel = 0` is exactly the `reroll_count < 100` guard failing.
Returns the die's final value together with the reroll count reached;
`none` signals an error set in the context (unknown comparison operator or
RNG failure).  Each matching value is traced as a discarded (unselected)
roll before the re-draw. -/
def rerollOne (sides : Int) (op : BinOp) (v : Int) :
    Context → Int → Nat → Nat → Context × Option (Int × Nat)
  | ctx, roll, cnt, 0 => (ctx, some (roll, cnt))
  | ctx, roll, cnt, fuel + 1 =>
    match cmpMatch op roll v with
    | none => (setError ctx .unknownComparisonReroll, none)
    | some true =>
      let ctx1 := trace_atomic_roll_selected ctx sides roll false
      let (nr, rng1) := ctx1.rng.roll sides
      let ctx2 := { ctx1 with rng := rng1 }
      if nr < 0 then (setError ctx2 .rngError, none)
      else rerollOne sides op v ctx2 nr (cnt + 1) fuel
    | some false => (ctx, some (roll, cnt))

/-- The outer per-die loop of the reroll branch: processes dice in roll
order, failing with the reroll-limit error (naming the 1-based die index)
when a die used up all 100 reroll attempts.  Returns the final values. -/
def rerollDice (ctx : Context) (sides : Int) (op : BinOp) (v : Int) :
    List Int → Nat → Context × Option (List Int)
  | [], _ => (ctx, some [])
  | roll :: rest, i =>
    match rerollOne sides op v ctx roll 0 100 with
    | (ctx1, none) => (ctx1, none)
    | (ctx1, some (final, used)) =>
      if used ≥ 100 then (setError ctx1 (.rerollLimit (i + 1)), none)
      else
        match rerollDice ctx1 sides op v rest (i + 1) with
        | (ctx2, some finals) => (ctx2, some (final :: finals))
        | (ctx2, none) => (ctx2, none)

/-- The conditional-selection loop of `evaluate_dice_filter`: pair each roll
with its match verdict; `none` is the unknown-comparison-operator error
(hit on the first iteration in C, before anything is traced). -/
def condSelect (op : BinOp) (v : Int) : List Int → Option (List (Int × Bool))
  | [] => some []
  | r :: rest =>
    match cmpMatch op r v with
    | none => none
    | some m =>
      match condSelect op v rest with
      | some tail => some ((r, m) :: tail)
      | none => none

/-- Exchange one element pair of a list (the C swap of two
`roll_with_index_t` slots).  Out-of-range indices leave the list unchanged
(the C indices are always in range). -/
def swapL (l : List (Int × Nat)) (i j : Nat) : List (Int × Nat) :=
  match l.get? i, l.get? j with
  | some x, some y => (l.set i y).set j x
  | _, _ => l

/-- Inner loop `for (j = i+1; j < count; j++)` of the exchange sort in the
count-based branch: swap whenever slot `j` compares ahead of slot `i`
(`>` for `select_high`, `<` otherwise).  `steps` counts remaining `j`s. -/
def innerLoop (high : Bool) (i : Nat) : List (Int × Nat) → Nat → Nat → List (Int × Nat)
  | l, _, 0 => l
  | l, j, steps + 1 =>
    let vj := (l.getD j (0, 0)).1
    let vi := (l.getD i (0, 0)).1
    let l1 := if (if high then vj > vi else vj < vi) then swapL l i j else l
    innerLoop high i l1 (j + 1) steps

/-- Outer loop `for (i = 0; i < count - 1; i++)` of the exchange sort. -/
def sortLoop (high : Bool) (n : Nat) : List (Int × Nat) → Nat → Nat → List (Int × Nat)
  | l, _, 0 => l
  | l, i, steps + 1 =>
    sortLoop high n (innerLoop high i l (i + 1) (n - (i + 1))) (i + 1) steps

/-- The whole exchange sort of the count-based branch, on the array of
`(value, original_index)` pairs. -/
def exchangeSort (high : Bool) (l : List (Int × Nat)) : List (Int × Nat) :=
  sortLoop high l.length l 0 (l.length - 1)

/-- Append a batch of trace entries (the final
`trace_atomic_roll_selected` loop of `evaluate_dice_filter`). -/
def appendTrace (ctx : Context) (es : List TraceEntry) : Context :=
  { ctx with trace := ctx.trace ++ es }

/-- `evaluate_dice_filter` (eval.c): roll `count` dice, then apply exactly
one of the reroll / conditional / count-based selection algorithms.
Returns the filtered sum; errors are set in the context and yield 0. -/
def evaluate_dice_filter (ctx : Context) (count : Int) (sides : Int)
    (selection : Option Selection) : Context × Int :=
  match selection with
  | none => (ctx, 0)
  | some sel =>
    let n := count.toNat
    match rollPool ctx sides n with
    | (ctx1, none) => (ctx1, 0)
    | (ctx1, some rolls) =>
      if sel.is_conditional && sel.is_reroll then
        match rerollDice ctx1 sides sel.comparison_op sel.comparison_value rolls 0 with
        | (ctx2, none) => (ctx2, 0)
        | (ctx2, some finals) =>
          let ctx3 := appendTrace ctx2 (finals.map fun r => ⟨sides, r, true⟩)
          (ctx3, finals.sum)
      else if sel.is_conditional then
        match condSelect sel.comparison_op sel.comparison_value rolls with
        | none => (setError ctx1 .unknownComparisonConditional, 0)
        | some pairs =>
          let ctx2 := appendTrace ctx1 (pairs.map fun p => ⟨sides, p.1, p.2⟩)
          (ctx2, ((pairs.filter fun p => p.2).map fun p => p.1).sum)
      else
        let actual : Int :=
          if sel.is_drop_operation then
            if sel.count ≥ count then 0 else count - sel.count
          else
            if sel.count > count then count else sel.count
        if actual < 0 then (setError ctx1 (.invalidSelectionCount actual), 0)
        else if actual = 0 then (ctx1, 0)
        else
          let indexed := rolls.enum.map fun p => (p.2, p.1)
          let sorted := exchangeSort sel.select_high indexed
          let top := sorted.take actual.toNat
          let selectedL := top.foldl (fun s p => s.set p.2 true) (List.replicate n false)
          let ctx2 := appendTrace ctx1 ((rolls.zip selectedL).map fun p => ⟨sides, p.1, p.2⟩)
          (ctx2, (top.map fun p => p.1).sum)

/-- The basic roll loop of the `DICE_NODE_DICE_OP` case of `dice_evaluate`:
roll, check for RNG failure, trace unselected, accumulate. -/
def basicRolls (ctx : Context) (sides : Int) : Nat → Context × Option Int
  | 0 => (ctx, some 0)
  | n + 1 =>
    let (r, rng1) := ctx.rng.roll sides
    let ctx1 := { ctx with rng := rng1 }
    if r < 0 then (setError ctx1 .rngError, none)
    else
      let ctx2 := trace_atomic_roll ctx1 sides r
      match basicRolls ctx2 sides n with
      | (ctx3, some s) => (ctx3, some (r + s))
      | (ctx3, none) => (ctx3, none)

/-- The custom-die roll loop of `dice_evaluate`: uniform face index via
`rand(face_count)` with a modulo fallback, trace the face value unselected
(recording the side count as the traced `sides`), accumulate. -/
def customRolls (ctx : Context) (die : CustomDie) : Nat → Context × Int
  | 0 => (ctx, 0)
  | n + 1 =>
    let m := die.sides.length
    let (rv0, rng1) := ctx.rng.rand m
    let ctx1 := { ctx with rng := rng1 }
    let rv := if rv0 ≥ m then rv0 % m else rv0
    let value := (die.sides.getD rv ⟨0, none⟩).value
    let ctx2 := trace_atomic_roll ctx1 (Int.ofNat m) value
    let (ctx3, s) := customRolls ctx2 die n
    (ctx3, value + s)

/-- The custom-dice part of the `DICE_NODE_DICE_OP` case of `dice_evaluate`
(entered after the count validation): resolve the inline or registered die,
check it has sides, roll `count` faces. -/
def evalCustomDice (ctx : Context) (count : Int) (custom_name : Option String)
    (custom_die : Option CustomDie) : Context × EvalResult :=
  let dieRes : Context × Option CustomDie :=
    match custom_die with
    | some die => (ctx, some die)
    | none =>
      match custom_name with
      | some nm =>
        match dice_lookup_custom_die ctx nm with
        | some die => (ctx, some die)
        | none => (setError ctx (.unknownCustomDie nm), none)
      | none => (setError ctx .customDieNoDefinition, none)
  match dieRes with
  | (ctx1, none) => (ctx1, ⟨0, false⟩)
  | (ctx1, some die) =>
    if die.sides.length = 0 then (setError ctx1 .customDieNoSides, ⟨0, false⟩)
    else
      let (ctx2, s) := customRolls ctx1 die count.toNat
      (ctx2, ⟨s, true⟩)

/-- The standard-dice part of the `DICE_NODE_DICE_OP` case of
`dice_evaluate` (entered with `count` and the evaluated `sides` in hand):
validate the sides against the policy, then either run the filter
algorithms or the plain roll loop. -/
def evalStandardDice (ctx : Context) (dt : DiceType) (count sd : Int)
    (selection : Option Selection) : Context × EvalResult :=
  if sd ≤ 0 then (setError ctx (.sidesNotPositive sd), ⟨0, false⟩)
  else if sd > ctx.policy.max_sides then
    (setError ctx (.tooManySides sd), ⟨0, false⟩)
  else if dt = .filter then
    let (ctx1, s) := evaluate_dice_filter ctx count sd selection
    if ctx1.error.isSome then (ctx1, ⟨0, false⟩)
    else (ctx1, ⟨s, true⟩)
  else
    match basicRolls ctx sd count.toNat with
    | (ctx1, some s) => (ctx1, ⟨s, true⟩)
    | (ctx1, none) => (ctx1, ⟨0, false⟩)

/-- The operator `switch` of the `DICE_NODE_BINARY_OP` case of
`dice_evaluate`, applied once both operands evaluated successfully:
apply `+ - * /` (C signed division truncates toward zero), a zero divisor
or a comparison operator reaching this switch being hard errors. -/
def applyBinaryOp (ctx : Context) (op : BinOp) (a b : Int) : Context × EvalResult :=
  match op with
  | .add => (ctx, ⟨a + b, true⟩)
  | .sub => (ctx, ⟨a - b, true⟩)
  | .mul => (ctx, ⟨a * b, true⟩)
  | .div =>
    if b = 0 then (setError ctx .divisionByZero, ⟨0, false⟩)
    else (ctx, ⟨Int.tdiv a b, true⟩)
  | _ => (setError ctx .unknownBinaryOp, ⟨0, false⟩)

/-- `dice_evaluate` (eval.c): the tree-walking evaluator.  A failed operand
is returned as-is (`return left;` / `return right;`), so the right operand
of a binary node is never evaluated when the left one failed.  The dice-op
case evaluates the count (defaulting to 1 for a NULL count node), validates
it, and hands off to `evalCustomDice` or — after evaluating the sides,
where a NULL sides pointer reaches `dice_evaluate(ctx, NULL)` and so
yields `{0, false}` without touching the context — to `evalStandardDice`. -/
def dice_evaluate (ctx : Context) : AST → Context × EvalResult
  | .literal v => (ctx, ⟨v, true⟩)
  | .binaryOp op l r =>
    let lp := dice_evaluate ctx l
    if !lp.2.success then lp
    else
      let rp := dice_evaluate lp.1 r
      if !rp.2.success then rp
      else applyBinaryOp rp.1 op lp.2.value rp.2.value
  | .diceOp dt cnt sides _ selection custom_name custom_die =>
    let cp :=
      match cnt with
      | some c => dice_evaluate ctx c
      | none => (ctx, ⟨1, true⟩)
    if !cp.2.success then cp
    else
      let count := cp.2.value
      if count ≤ 0 then (setError cp.1 (.countNotPositive count), ⟨0, false⟩)
      else if count > cp.1.policy.max_dice_count then
        (setError cp.1 (.tooManyDice count), ⟨0, false⟩)
      else if dt = .custom then
        evalCustomDice cp.1 count custom_name custom_die
      else
        let sp :=
          match sides with
          | some s => dice_evaluate cp.1 s
          | none => (cp.1, ⟨0, false⟩)
        if !sp.2.success then sp
        else evalStandardDice sp.1 dt count sp.2.value selection
  | .functionCall nm =>
    (setError ctx (.functionCallsNotSupported nm), ⟨0, false⟩)
  | .annot _ _ child => dice_evaluate ctx child

-- ===========================================================================
-- Parser (parser.c)
-- ===========================================================================

/-- NUL: reading past the end of the C string yields the terminator. -/
def nulC : Char := Char.ofNat 0

/-- The `'\x7b'` / `'\x7d'` brace characters of the inline custom-die
grammar, and the quote and backslash characters of its labels. -/
def lbraceC : Char := Char.ofNat 123

def rbraceC : Char := Char.ofNat 125

def quoteC : Char := Char.ofNat 34

def backslashC : Char := Char.ofNat 92

/-- Reading the character `n` places ahead, `'\0'` past the end. -/
def peekC (s : List Char) (n : Nat) : Char := s.getD n nulC

/-- The character at the cursor (`*state->pos`). -/
def currC (s : List Char) : Char := peekC s 0

/-- C `isspace`. -/
def isSpaceC (c : Char) : Bool :=
  c = ' ' || c = '\t' || c = '\n' || c = Char.ofNat 11 || c = Char.ofNat 12 || c = '\r'

/-- `is_digit` (parser.c). -/
def isDigitC (c : Char) : Bool := '0' ≤ c && c ≤ '9'

/-- `is_letter` (parser.c). -/
def isLetterC (c : Char) : Bool := ('A' ≤ c && c ≤ 'Z') || ('a' ≤ c && c ≤ 'z')

/-- C `tolower` restricted to ASCII letters as the parser uses it. -/
def tolowerC (c : Char) : Char :=
  if 'A' ≤ c && c ≤ 'Z' then Char.ofNat (c.toNat + 32) else c

/-- `skip_whitespace` (parser.c). -/
def skipWs : List Char → List Char
  | [] => []
  | c :: rest => if isSpaceC c then skipWs rest else c :: rest

/-- Parser cursor: the context plus the remaining input
(`parser_state_t` with `pos` as a list suffix). -/
structure PSt where
  ctx : Context
  s : List Char

/-- Record a parse error in the context's error buffer. -/
def setErrorP (st : PSt) (e : DiceError) : PSt :=
  { st with ctx := setError st.ctx e }

/-- `parse_number` (parser.c): scan a digit run into a literal node.
Whitespace is skipped even when no digit follows (the C cursor moves). -/
def parse_number (st : PSt) : PSt × Option AST :=
  let s := skipWs st.s
  if isDigitC (currC s) then
    let digits := s.takeWhile isDigitC
    let rest := s.dropWhile isDigitC
    let value := digits.foldl (fun v c => v * 10 + Int.ofNat (c.toNat - '0'.toNat)) 0
    ({ st with s := rest }, some (.literal value))
  else ({ st with s := s }, none)

/-- The quoted-label scan of `parse_custom_die_definition`, entered just
after the opening quote: the label is produced only when a closing quote is
found; otherwise the cursor stops at the end of input and no label is set. -/
def scanLabel (s : List Char) : Option String × List Char :=
  let content := s.takeWhile (fun c => c ≠ quoteC)
  let rest := s.dropWhile (fun c => c ≠ quoteC)
  match rest with
  | _ :: rest1 => (some (String.mk content), rest1)
  | [] => (none, [])

/-- The side-counting pre-scan of `parse_custom_die_definition`: walk the
definition body tracking quoting, nested brace depth and whether a value is
pending, counting commas at depth 0; reaching the end of input stops the
scan like the closing brace does.  Returns the final `expecting_value` flag
and the comma count. -/
def countSidesLoop : List Char → Option Char → Nat → Bool → Bool → Nat → Bool × Nat
  | [], _, _, _, expecting, cnt => (expecting, cnt)
  | c :: rest, prev, depth, inQuotes, expecting, cnt =>
    if depth = 0 && c = rbraceC then (expecting, cnt)
    else
      if c = quoteC && (prev = none || prev ≠ some backslashC) then
        let inQuotes1 := !inQuotes
        let expecting1 := if inQuotes1 && expecting then false else expecting
        countSidesLoop rest (some c) depth inQuotes1 expecting1 cnt
      else if !inQuotes then
        if c = lbraceC then countSidesLoop rest (some c) (depth + 1) inQuotes expecting cnt
        else if c = rbraceC then countSidesLoop rest (some c) (depth - 1) inQuotes expecting cnt
        else if c = ',' && depth = 0 && !expecting then
          countSidesLoop rest (some c) depth inQuotes true (cnt + 1)
        else if !isSpaceC c && expecting then
          countSidesLoop rest (some c) depth inQuotes false cnt
        else countSidesLoop rest (some c) depth inQuotes expecting cnt
      else countSidesLoop rest (some c) depth inQuotes expecting cnt

/-- The side-collection loop of `parse_custom_die_definition`: parse
`value`, `value:"label"` or `"label"` items separated by commas, adding at
most `maxSides` sides (the pre-scan count caps the array). -/
def parseSidesLoop (fuel : Nat) (st : PSt) (maxSides : Nat)
    (acc : List CustomSide) : PSt × Option (List CustomSide) :=
  match fuel with
  | 0 => (st, none)
  | f + 1 =>
    if currC st.s = nulC || currC st.s = rbraceC then (st, some acc)
    else
      let s := skipWs st.s
      if currC s = rbraceC then ({ st with s := s }, some acc)
      else if isDigitC (currC s) || currC s = '-' then
        let (neg, s1) := if currC s = '-' then (true, s.tail) else (false, s)
        let digits := s1.takeWhile isDigitC
        let s2 := s1.dropWhile isDigitC
        let v0 := digits.foldl (fun v c => v * 10 + Int.ofNat (c.toNat - '0'.toNat)) 0
        let value := if neg then -v0 else v0
        let s3 := skipWs s2
        let (label, s4) :=
          if currC s3 = ':' then
            let s3a := skipWs s3.tail
            if currC s3a = quoteC then scanLabel s3a.tail
            else (none, s3a)
          else (none, s3)
        let acc1 := if acc.length < maxSides then acc ++ [⟨value, label⟩] else acc
        let s5 := skipWs s4
        if currC s5 = ',' then parseSidesLoop f { st with s := s5.tail } maxSides acc1
        else if currC s5 ≠ rbraceC then
          (setErrorP { st with s := s5 } .expectedCommaOrBraceInCustomDie, none)
        else parseSidesLoop f { st with s := s5 } maxSides acc1
      else if currC s = quoteC then
        let value := Int.ofNat (acc.length + 1)
        let (label, s4) := scanLabel s.tail
        let acc1 := if acc.length < maxSides then acc ++ [⟨value, label⟩] else acc
        let s5 := skipWs s4
        if currC s5 = ',' then parseSidesLoop f { st with s := s5.tail } maxSides acc1
        else if currC s5 ≠ rbraceC then
          (setErrorP { st with s := s5 } .expectedCommaOrBraceInCustomDie, none)
        else parseSidesLoop f { st with s := s5 } maxSides acc1
      else
        (setErrorP { st with s := s } .expectedNumberOrStringInCustomDie, none)

/-- `parse_custom_die_definition` (parser.c): pre-scan to count sides (an
empty definition is an error), then collect them; the cursor must end on
the closing brace, which is consumed. -/
def parse_custom_die_definition (fuel : Nat) (st : PSt) : PSt × Option CustomDie :=
  let s := skipWs st.s
  if currC s ≠ lbraceC then ({ st with s := s }, none)
  else
    let s1 := skipWs s.tail
    let (expecting, commas) := countSidesLoop s1 none 0 false true 0
    let side_count := if expecting = false then commas + 1 else commas
    if side_count = 0 then (setErrorP { st with s := s1 } .emptyCustomDie, none)
    else
      match parseSidesLoop fuel { st with s := s1 } side_count [] with
      | (st2, none) => (st2, none)
      | (st2, some sides) =>
        if currC st2.s ≠ rbraceC then
          (setErrorP st2 .expectedClosingBraceInCustomDie, none)
        else ({ st2 with s := st2.s.tail }, some ⟨none, sides⟩)

mutual

/-- `parse_expression` (parser.c). -/
def parse_expression (fuel : Nat) (st : PSt) : PSt × Option AST :=
  match fuel with
  | 0 => (st, none)
  | f + 1 => parse_sum f st
termination_by structural fuel

/-- `parse_sum` (parser.c): a product followed by a `+`/`-` chain. -/
def parse_sum (fuel : Nat) (st : PSt) : PSt × Option AST :=
  match fuel with
  | 0 => (st, none)
  | f + 1 =>
    match parse_product f st with
    | (st1, none) => (st1, none)
    | (st1, some left) => sumChain f st1 left
termination_by structural fuel

/-- The `while` chain of `parse_sum`; a missing right operand overwrites
the error buffer like the C `snprintf` does. -/
def sumChain (fuel : Nat) (st : PSt) (left : AST) : PSt × Option AST :=
  match fuel with
  | 0 => (st, none)
  | f + 1 =>
    let s := skipWs st.s
    if currC s = '+' || currC s = '-' then
      let op := if currC s = '+' then BinOp.add else BinOp.sub
      match parse_product f { st with s := s.tail } with
      | (st2, none) => (setErrorP st2 .expectedExpressionAfterOperator, none)
      | (st2, some right) => sumChain f st2 (.binaryOp op left right)
    else ({ st with s := s }, some left)
termination_by structural fuel

/-- `parse_product` (parser.c): a unary followed by a `*`/`/` chain. -/
def parse_product (fuel : Nat) (st : PSt) : PSt × Option AST :=
  match fuel with
  | 0 => (st, none)
  | f + 1 =>
    match parse_unary f st with
    | (st1, none) => (st1, none)
    | (st1, some left) => prodChain f st1 left
termination_by structural fuel

/-- The `while` chain of `parse_product`. -/
def prodChain (fuel : Nat) (st : PSt) (left : AST) : PSt × Option AST :=
  match fuel with
  | 0 => (st, none)
  | f + 1 =>
    let s := skipWs st.s
    if currC s = '*' || currC s = '/' then
      let op := if currC s = '*' then BinOp.mul else BinOp.div
      match parse_unary f { st with s := s.tail } with
      | (st2, none) => (setErrorP st2 .expectedExpressionAfterOperator, none)
      | (st2, some right) => prodChain f st2 (.binaryOp op left right)
    else ({ st with s := s }, some left)
termination_by structural fuel

/-- `parse_unary` (parser.c): unary `+` is the identity, unary `-`
desugars to `0 - operand`; a failed operand is passed through silently. -/
def parse_unary (fuel : Nat) (st : PSt) : PSt × Option AST :=
  match fuel with
  | 0 => (st, none)
  | f + 1 =>
    let s := skipWs st.s
    if currC s = '+' || currC s = '-' then
      let isPlus := currC s = '+'
      match parse_unary f { st with s := s.tail } with
      | (st1, none) => (st1, none)
      | (st1, some operand) =>
        if isPlus then (st1, some operand)
        else (st1, some (.binaryOp .sub (.literal 0) operand))
    else parse_primary f { st with s := s }
termination_by structural fuel

/-- `parse_primary` (parser.c): group, or speculative dice with fallback to
a plain number when the dice attempt failed without raising an error. -/
def parse_primary (fuel : Nat) (st : PSt) : PSt × Option AST :=
  match fuel with
  | 0 => (st, none)
  | f + 1 =>
    let s := skipWs st.s
    let (st2, res) :=
      if currC s = '(' then parse_group f { st with s := s }
      else if isDigitC (currC s) || currC s = 'd' || currC s = 'D' then
        match parse_dice f { st with s := s } with
        | (st1, some r) => (st1, some r)
        | (st1, none) =>
          if st1.ctx.error.isSome then (st1, none)
          else parse_number { st1 with s := s }
      else ({ st with s := s }, none)
    match res with
    | some r => (st2, some r)
    | none =>
      if st2.ctx.error.isSome then (st2, none)
      else (setErrorP st2 .expectedPrimary, none)
termination_by structural fuel

/-- `parse_group` (parser.c): parenthesized sub-expression. -/
def parse_group (fuel : Nat) (st : PSt) : PSt × Option AST :=
  match fuel with
  | 0 => (st, none)
  | f + 1 =>
    let s := skipWs st.s
    if currC s ≠ '(' then ({ st with s := s }, none)
    else
      match parse_expression f { st with s := s.tail } with
      | (st1, none) => (st1, none)
      | (st1, some expr) =>
        let s1 := skipWs st1.s
        if currC s1 ≠ ')' then
          (setErrorP { st1 with s := s1 } .expectedClosingParen, none)
        else ({ st1 with s := s1.tail }, some expr)
termination_by structural fuel

/-- `parse_dice` (parser.c), first part: optional count, the `d`/`D`
marker (restoring the cursor when a number is not followed by `d`). -/
def parse_dice (fuel : Nat) (st : PSt) : PSt × Option AST :=
  match fuel with
  | 0 => (st, none)
  | f + 1 =>
    let s := skipWs st.s
    if isDigitC (currC s) then
      match parse_number { st with s := s } with
      | (st1, some countAst) =>
        let s1 := skipWs st1.s
        if currC s1 ≠ 'd' && currC s1 ≠ 'D' then ({ st1 with s := s }, none)
        else parse_dice_tail f { st1 with s := s1.tail } (some countAst)
      | (st1, none) => ({ st1 with s := s }, none)
    else if currC s ≠ 'd' && currC s ≠ 'D' then ({ st with s := s }, none)
    else parse_dice_tail f { st with s := s.tail } none
termination_by structural fuel

/-- `parse_dice`, sides specification after the `d`: an inline custom-die
definition, a named custom die, or numeric sides. -/
def parse_dice_tail (fuel : Nat) (st : PSt) (count : Option AST) : PSt × Option AST :=
  match fuel with
  | 0 => (st, none)
  | f + 1 =>
    let s := skipWs st.s
    if currC s = lbraceC then
      match parse_custom_die_definition f { st with s := s } with
      | (st1, none) => (st1, none)
      | (st1, some die) =>
        parse_dice_modifiers f st1 .custom count none none (some die)
    else if isLetterC (currC s) then
      let nameChars := s.takeWhile (fun c => isLetterC c || isDigitC c)
      let rest := s.dropWhile (fun c => isLetterC c || isDigitC c)
      parse_dice_modifiers f { st with s := rest } .custom count none
        (some (String.mk nameChars)) none
    else
      match parse_number { st with s := s } with
      | (st1, none) => (setErrorP st1 .expectedSidesAfterD, none)
      | (st1, some sidesAst) =>
        parse_dice_modifiers f st1 .basic count (some sidesAst) none none
termination_by structural fuel

/-- `parse_dice`, modifier section: a single-letter keep modifier `k`/`h`
(keep high) or `l` (keep low) whose next character must be a digit, space,
tab, parenthesis, end of input or an arithmetic operator; or a conditional
selection `s...`; or a reroll `r...`; otherwise no modifier. -/
def parse_dice_modifiers (fuel : Nat) (st : PSt) (dt : DiceType)
    (count : Option AST) (sidesOpt : Option AST) (nameOpt : Option String)
    (dieOpt : Option CustomDie) : PSt × Option AST :=
  match fuel with
  | 0 => (st, none)
  | f + 1 =>
    let s := skipWs st.s
    let c := currC s
    let c2 := peekC s 1
    if (c = 'k' || c = 'K' || c = 'h' || c = 'H' || c = 'l' || c = 'L') &&
       (isDigitC c2 || c2 = ' ' || c2 = '\t' || c2 = '(' || c2 = nulC ||
        c2 = '+' || c2 = '-' || c2 = '*' || c2 = '/') then
      let op1 := tolowerC c
      let s1 := skipWs s.tail
      let (st1, selCount) :=
        if currC s1 = '(' then parse_primary f { st with s := s1 }
        else if isDigitC (currC s1) then parse_number { st with s := s1 }
        else ({ st with s := s1 }, some (.literal 1))
      match selCount with
      | none => (setErrorP st1 (.failedSelectionCount op1), none)
      | some scAst =>
        match scAst with
        | .literal v =>
          if op1 = 'k' || op1 = 'h' then
            (st1, some (.diceOp .filter count sidesOpt (some scAst)
              (some ⟨v, true, false, false, .add, 0, false⟩) nameOpt dieOpt))
          else if op1 = 'l' then
            (st1, some (.diceOp .filter count sidesOpt (some scAst)
              (some ⟨v, false, false, false, .add, 0, false⟩) nameOpt dieOpt))
          else (setErrorP st1 (.unknownSelectionOperator op1), none)
        | _ => (setErrorP st1 .exprSelectionCountsNotImplemented, none)
    else if c = 's' || c = 'S' then
      let s1 := skipWs s.tail
      let c0 := currC s1
      let c1 := peekC s1 1
      if c0 = '>' && c1 = '=' then
        parse_s_value f { st with s := s1.drop 2 } .gte count sidesOpt nameOpt dieOpt
      else if c0 = '<' && c1 = '=' then
        parse_s_value f { st with s := s1.drop 2 } .lte count sidesOpt nameOpt dieOpt
      else if c0 = '<' && c1 = '>' then
        parse_s_value f { st with s := s1.drop 2 } .neq count sidesOpt nameOpt dieOpt
      else if c0 = '=' then
        parse_s_value f { st with s := s1.tail } .eq count sidesOpt nameOpt dieOpt
      else if c0 = '>' then
        parse_s_value f { st with s := s1.tail } .gt count sidesOpt nameOpt dieOpt
      else if c0 = '<' then
        parse_s_value f { st with s := s1.tail } .lt count sidesOpt nameOpt dieOpt
      else if isDigitC c0 then
        parse_s_value f { st with s := s1 } .eq count sidesOpt nameOpt dieOpt
      else if c0 = nulC || c0 = ' ' || c0 = '\t' || c0 = '+' || c0 = '-' ||
              c0 = '*' || c0 = '/' then
        parse_s_value f { st with s := s1 } .eq count sidesOpt nameOpt dieOpt
      else (setErrorP { st with s := s1 } .expectedComparisonAfterS, none)
    else if c = 'r' || c = 'R' then
      let s1 := skipWs s.tail
      let c0 := currC s1
      let c1 := peekC s1 1
      if c0 = '>' && c1 = '=' then
        parse_r_value f { st with s := s1.drop 2 } .gte count sidesOpt nameOpt dieOpt
      else if c0 = '<' && c1 = '=' then
        parse_r_value f { st with s := s1.drop 2 } .lte count sidesOpt nameOpt dieOpt
      else if c0 = '<' && c1 = '>' then
        parse_r_value f { st with s := s1.drop 2 } .neq count sidesOpt nameOpt dieOpt
      else if c0 = '=' && c1 = '=' then
        parse_r_value f { st with s := s1.drop 2 } .eq count sidesOpt nameOpt dieOpt
      else if c0 = '=' then
        parse_r_value f { st with s := s1.tail } .eq count sidesOpt nameOpt dieOpt
      else if c0 = '>' then
        parse_r_value f { st with s := s1.tail } .gt count sidesOpt nameOpt dieOpt
      else if c0 = '<' then
        parse_r_value f { st with s := s1.tail } .lt count sidesOpt nameOpt dieOpt
      else if isDigitC c0 then
        parse_r_value f { st with s := s1 } .eq count sidesOpt nameOpt dieOpt
      else if c0 = nulC || c0 = ' ' || c0 = '\t' || c0 = '+' || c0 = '-' ||
              c0 = '*' || c0 = '/' then
        parse_r_value f { st with s := s1 } .eq count sidesOpt nameOpt dieOpt
      else (setErrorP { st with s := s1 } .expectedComparisonAfterR, none)
    else ({ st with s := s }, some (.diceOp dt count sidesOpt none none nameOpt dieOpt))
termination_by structural fuel

/-- `parse_dice`, comparison value of an `s` conditional selection: a
number, or a default of 1 only when no explicit comparison operator was
given; the node becomes a Filter with a conditional selection. -/
def parse_s_value (fuel : Nat) (st : PSt) (comp_op : BinOp)
    (count : Option AST) (sidesOpt : Option AST) (nameOpt : Option String)
    (dieOpt : Option CustomDie) : PSt × Option AST :=
  match fuel with
  | 0 => (st, none)
  | _ + 1 =>
    let s := skipWs st.s
    if isDigitC (currC s) then
      match parse_number { st with s := s } with
      | (st1, some cv) =>
        match cv with
        | .literal v =>
          (st1, some (.diceOp .filter count sidesOpt (some cv)
            (some ⟨0, false, false, true, comp_op, v, false⟩) nameOpt dieOpt))
        | _ => (setErrorP st1 .failedComparisonValueS, none)
      | (st1, none) => (setErrorP st1 .failedComparisonValueS, none)
    else if currC s = nulC || currC s = ' ' || currC s = '\t' || currC s = '+' ||
            currC s = '-' || currC s = '*' || currC s = '/' then
      if comp_op ≠ .eq then
        (setErrorP { st with s := s } .missingComparisonValue, none)
      else
        ({ st with s := s }, some (.diceOp .filter count sidesOpt
          (some (.literal 1))
          (some ⟨0, false, false, true, comp_op, 1, false⟩) nameOpt dieOpt))
    else (setErrorP { st with s := s } .expectedNumericValueAfterS, none)

/-- `parse_dice`, comparison value of an `r` reroll: like `s` but the
selection is marked as a reroll (both conditional and reroll flags set). -/
def parse_r_value (fuel : Nat) (st : PSt) (comp_op : BinOp)
    (count : Option AST) (sidesOpt : Option AST) (nameOpt : Option String)
    (dieOpt : Option CustomDie) : PSt × Option AST :=
  match fuel with
  | 0 => (st, none)
  | _ + 1 =>
    let s := skipWs st.s
    if isDigitC (currC s) then
      match parse_number { st with s := s } with
      | (st1, some cv) =>
        match cv with
        | .literal v =>
          (st1, some (.diceOp .filter count sidesOpt (some cv)
            (some ⟨0, false, false, true, comp_op, v, true⟩) nameOpt dieOpt))
        | _ => (setErrorP st1 .failedComparisonValueR, none)
      | (st1, none) => (setErrorP st1 .failedComparisonValueR, none)
    else if currC s = nulC || currC s = ' ' || currC s = '\t' || currC s = '+' ||
            currC s = '-' || currC s = '*' || currC s = '/' then
      if comp_op ≠ .eq then
        (setErrorP { st with s := s } .missingComparisonValue, none)
      else
        ({ st with s := s }, some (.diceOp .filter count sidesOpt
          (some (.literal 1))
          (some ⟨0, false, false, true, comp_op, 1, true⟩) nameOpt dieOpt))
    else (setErrorP { st with s := s } .expectedNumericValueAfterR, none)

end

/-- `dice_parse` (parser.c): parse a whole expression; any non-whitespace
left after a successful parse is a trailing-characters syntax error.  The
fuel bounds the recursion depth and is generous enough never to run out on
the inputs considered. -/
def dice_parse (ctx : Context) (str : String) : Context × Option AST :=
  let s0 := str.toList
  match parse_expression (8 * s0.length + 16) ⟨ctx, s0⟩ with
  | (st1, none) => (st1.ctx, none)
  | (st1, some result) =>
    let s := skipWs st1.s
    if s ≠ [] then
      (setError st1.ctx (.trailingCharacters (String.mk s)), none)
    else (st1.ctx, some result)

/-- `dice_roll_expression` (eval.c): parse then evaluate. -/
def dice_roll_expression (ctx : Context) (str : String) : Context × EvalResult :=
  match dice_parse ctx str with
  | (ctx1, none) => (ctx1, ⟨0, false⟩)
  | (ctx1, some ast) => dice_evaluate ctx1 ast

-- ===========================================================================
-- Trace formatting (trace.c)
-- ===========================================================================

/-- The header `snprintf` text of `dice_format_trace_string`. -/
def traceHeader : String := "Individual dice results:\n"

/-- One formatted atomic-roll line, `"  d%d -> %d%s\n"` with the `*` marker
exactly when the roll is selected. -/
def entryLine (e : TraceEntry) : String :=
  "  d" ++ toString e.sides ++ " -> " ++ toString e.result ++
    (if e.selected then "*" else "") ++ "\n"

/-- The entry loop of `dice_format_trace_string`: stop (reporting the bytes
written so far) when the cursor reached the last buffer byte; fail with
`none` (the C `-1`) when the next line does not fit in the remaining space
(`written >= buffer_size - pos` covers the truncated `snprintf`). -/
def formatLoop (bufferSize : Nat) : List TraceEntry → Nat → String → Option (Nat × String)
  | [], pos, out => some (pos, out)
  | e :: rest, pos, out =>
    if pos < bufferSize - 1 then
      let line := entryLine e
      if line.length ≥ bufferSize - pos then none
      else formatLoop bufferSize rest (pos + line.length) (out ++ line)
    else some (pos, out)

/-- `dice_format_trace_string` (trace.c): returns the C return value (number
of bytes written, `0` for an empty trace, `-1` on error) paired with the
text written on success (the C buffer content).  On the `-1` paths the C
buffer holds truncated text with no length to interpret it by; the model
pairs those returns with the empty string. -/
def dice_format_trace_string (trace : List TraceEntry) (bufferSize : Nat) :
    Int × String :=
  if bufferSize = 0 then (-1, "")
  else if trace.length = 0 then (0, "")
  else if traceHeader.length ≥ bufferSize then (-1, "")
  else
    match formatLoop bufferSize trace traceHeader.length traceHeader with
    | none => (-1, "")
    | some (pos, out) => (Int.ofNat pos, out)

-- ===========================================================================
-- Concrete RNG streams and contexts used by concrete theorems
-- ===========================================================================

/-- A deterministic RNG whose `roll` always returns `v`. -/
def constRng (v : Int) : RNG := ⟨fun _ _ => v, fun _ _ => 0, 0⟩

/-- A deterministic RNG replaying a fixed list of rolls. -/
def listRng (l : List Int) : RNG := ⟨fun n _ => l.getD n 0, fun _ _ => 0, 0⟩

/-- A fresh context with the default policy, all features, empty trace,
registry and error, around a given RNG. -/
def baseCtx (r : RNG) : Context :=
  { policy := dice_default_policy, features := 255, trace := [], error := none,
    rng := r, registry := [], arena_used := 0 }

/-- Keep-high-2 selection as the parser builds it for `k2`. -/
def selKeepHigh2 : Selection := ⟨2, true, false, false, .add, 0, false⟩

/-- A keep selection (`k`/`h`/`l` with count) as the parser builds it. -/
def keepSel (high : Bool) (k : Int) : Selection := ⟨k, high, false, false, .add, 0, false⟩

/-- A drop-style count-based selection (drop N high or N low). -/
def dropSel (high : Bool) (k : Int) : Selection := ⟨k, high, true, false, .add, 0, false⟩

/-- An AST containing no Filter dice operation in any evaluated position
(the `count` and `sides` child expressions and all expression children):
exactly the dice terms with no filter modifier attached. -/
def noFilter : AST → Bool
  | .literal _ => true
  | .binaryOp _ l r => noFilter l && noFilter r
  | .diceOp dt c s _ _ _ _ =>
    decide (dt ≠ .filter) &&
    (match c with | some x => noFilter x | none => true) &&
    (match s with | some x => noFilter x | none => true)
  | .functionCall _ => true
  | .annot _ _ child => noFilter child

/-- Advancing the RNG call counter by `n` draws. -/
def RNG.advance (r : RNG) (n : Nat) : RNG := { r with idx := r.idx + n }

/-- The values the RNG will deliver for the next `n` `roll(sides)` calls. -/
def drawList (r : RNG) (sides : Int) : Nat → List Int
  | 0 => []
  | n + 1 => r.rollF r.idx sides :: drawList { r with idx := r.idx + 1 } sides n

-- ===========================================================================
-- Theorems
-- ===========================================================================

set_option maxHeartbeats 8000000

/-- The claim C1 theorem, documenting the code bug: the parser accepts only
single-letter `k`/`h`/`l` whose next character is a digit, space, tab,
parenthesis, end or arithmetic operator, so `4d6kh3` dies with a
trailing-characters syntax error while `4d6k3` evaluates fine; the repo's
own tests require both to succeed. -/
theorem c1_two_letter_keep_forms_rejected :
    (dice_parse (baseCtx (constRng 3)) "4d6kh3").2.isNone = true ∧
    (dice_parse (baseCtx (constRng 3)) "4d6kh3").1.error
      = some (.trailingCharacters "kh3") ∧
    (dice_roll_expression (baseCtx (constRng 3)) "4d6k3").2 = ⟨9, true⟩ := by
  refine ⟨by decide, by decide, by decide⟩

/-- Claim C2 counterexample: the claim says every well-formed `NdS!` parses
into an Exploding operation; in fact `3d6!` does not parse at all — the
parser has no `!` modifier, so the `!` is left over and `dice_parse`
reports trailing characters. -/
theorem c2_counterexample_exploding_unparsed :
    (dice_parse (baseCtx (constRng 3)) "3d6!").2.isNone = true ∧
    (dice_parse (baseCtx (constRng 3)) "3d6!").1.error
      = some (.trailingCharacters "!") := by
  refine ⟨by decide, by decide⟩

/-- Standard-dice evaluation does not distinguish Exploding from Basic:
the dice type is only compared against Custom and Filter. -/
theorem evalStandardDice_exploding_eq_basic (ctx : Context) (count sd : Int)
    (sel : Option Selection) :
    evalStandardDice ctx .exploding count sd sel =
    evalStandardDice ctx .basic count sd sel := by
  simp [evalStandardDice]

/-- The claim C2 amended theorem: a dice term `NdS!` fails to parse with a
trailing-characters syntax error (the active parser knows no `!`), and even
an Exploding-typed node would evaluate exactly like a Basic one — the
evaluator has no explosion loop and never reads `max_explosion_depth`. -/
theorem c2_amended_no_exploding_support :
    ((dice_parse (baseCtx (constRng 3)) "3d6!").2.isNone = true ∧
     (dice_parse (baseCtx (constRng 3)) "3d6!").1.error
       = some (.trailingCharacters "!")) ∧
    ∀ (ctx : Context) (c s m : Option AST) (sel : Option Selection),
      dice_evaluate ctx (.diceOp .exploding c s m sel none none) =
      dice_evaluate ctx (.diceOp .basic c s m sel none none) := by
  refine ⟨⟨by decide, by decide⟩, ?_⟩
  intro ctx c s m sel
  conv_lhs => rw [dice_evaluate.eq_def]
  conv_rhs => rw [dice_evaluate.eq_def]
  simp [evalStandardDice_exploding_eq_basic]

/-- Claim C3 counterexample: for rolls `[2, 2, 3]` with keep-high 2 the
claim predicts the 3 and the first-rolled 2 selected (flags
`[true, false, true]`); the evaluator's exchange sort is not stable and
gives different flags. -/
theorem c3_counterexample_tie_break :
    ¬ (((evaluate_dice_filter (baseCtx (listRng [2, 2, 3])) 3 6
        (some selKeepHigh2)).1.trace.map TraceEntry.selected)
      = [true, false, true]) := by decide

/-- The claim C3 amended theorem: count-based selection ranks the
`(value, original index)` pairs with an unstable exchange sort, so among
equal values a later-rolled die may be selected first; for rolls `[2, 2, 3]`
with keep-high 2 the selected dice are the 3 and the second-rolled 2, and
the result is 5. -/
theorem c3_amended_unstable_tie_break :
    (evaluate_dice_filter (baseCtx (listRng [2, 2, 3])) 3 6
      (some selKeepHigh2)).1.trace
      = [⟨6, 2, false⟩, ⟨6, 2, true⟩, ⟨6, 3, true⟩] ∧
    (evaluate_dice_filter (baseCtx (listRng [2, 2, 3])) 3 6
      (some selKeepHigh2)).2 = 5 := by
  refine ⟨by decide, by decide⟩

/-- The claim C5 theorem: a binary node evaluates its left operand first;
when the left operand fails, the failed pair is returned as-is, so the
right operand contributes no RNG draws, no trace entries and no error
overwrite; and a division whose right operand evaluates to 0 is a hard
division-by-zero error with a failed result. -/
theorem c5_binary_short_circuit_and_div_zero :
    (∀ (ctx : Context) (op : BinOp) (l r : AST),
      (dice_evaluate ctx l).2.success = false →
      dice_evaluate ctx (.binaryOp op l r) = dice_evaluate ctx l) ∧
    (∀ (ctx : Context) (l r : AST),
      (dice_evaluate ctx l).2.success = true →
      (dice_evaluate (dice_evaluate ctx l).1 r).2.success = true →
      (dice_evaluate (dice_evaluate ctx l).1 r).2.value = 0 →
      dice_evaluate ctx (.binaryOp .div l r) =
        (setError (dice_evaluate (dice_evaluate ctx l).1 r).1 .divisionByZero,
          ⟨0, false⟩)) := by
  constructor
  · intro ctx op l r h
    simp only [dice_evaluate]
    simp [h]
  · intro ctx l r h1 h2 h3
    simp only [dice_evaluate]
    simp [h1, h2, h3, applyBinaryOp]

/-- Claim C5 witness: the failing left operand of `f() + 1` short-circuits
(the unimplemented function call fails), and `10 / 0` is a hard
division-by-zero error. -/
theorem c5_witness :
    dice_evaluate (baseCtx (constRng 3)) (.binaryOp .add (.functionCall "f") (.literal 1))
      = dice_evaluate (baseCtx (constRng 3)) (.functionCall "f") ∧
    dice_evaluate (baseCtx (constRng 3)) (.binaryOp .div (.literal 10) (.literal 0))
      = (setError (baseCtx (constRng 3)) .divisionByZero, ⟨0, false⟩) :=
  ⟨c5_binary_short_circuit_and_div_zero.1 (baseCtx (constRng 3)) .add
      (.functionCall "f") (.literal 1) (by decide),
   c5_binary_short_circuit_and_div_zero.2 (baseCtx (constRng 3))
      (.literal 10) (.literal 0) (by decide) (by decide) (by decide)⟩

/-- The claim C10 theorem: creating a context with the FATE feature bit
registers the custom die `"F"`; `dice_context_reset` keeps policy, RNG and
feature flags and zeroes the arena, but also clears the whole custom-die
registry — so after a reset the lookup fails and evaluating `1dF` is an
unknown-custom-die error even though the FATE bit is still set. -/
theorem c10_reset_clears_fate_registry (features : Nat) (rng : RNG)
    (h : features &&& DICE_FEATURE_FATE ≠ 0) :
    dice_lookup_custom_die (dice_context_create features rng) "F"
      = some ⟨some "F", fateDie.sides⟩ ∧
    (dice_context_reset (dice_context_create features rng)).policy
      = (dice_context_create features rng).policy ∧
    (dice_context_reset (dice_context_create features rng)).rng
      = (dice_context_create features rng).rng ∧
    (dice_context_reset (dice_context_create features rng)).features = features ∧
    (dice_context_reset (dice_context_create features rng)).registry = [] ∧
    (dice_context_reset (dice_context_create features rng)).trace = [] ∧
    (dice_context_reset (dice_context_create features rng)).error = none ∧
    (dice_context_reset (dice_context_create features rng)).arena_used = 0 ∧
    dice_lookup_custom_die (dice_context_reset (dice_context_create features rng)) "F"
      = none ∧
    (dice_roll_expression (dice_context_reset (dice_context_create features rng))
        "1dF").2 = ⟨0, false⟩ ∧
    (dice_roll_expression (dice_context_reset (dice_context_create features rng))
        "1dF").1.error = some (.unknownCustomDie "F") := by
  have hc : dice_context_create features rng =
      { policy := dice_default_policy, features := features, trace := [],
        error := none, rng := rng,
        registry := [⟨some "F", fateDie.sides⟩], arena_used := 0 } := by
    simp [dice_context_create, dice_register_custom_die, fateDie, h]
  rw [hc]
  refine ⟨by simp [dice_lookup_custom_die, fateDie], rfl, rfl, rfl, rfl, rfl, rfl,
    rfl, rfl, rfl, rfl⟩

/-- Claim C10 witness: the reset/1dF behavior at the all-features mask. -/
theorem c10_witness :
    dice_lookup_custom_die (dice_context_create 255 (constRng 3)) "F"
      = some ⟨some "F", fateDie.sides⟩ ∧
    (dice_context_reset (dice_context_create 255 (constRng 3))).policy
      = (dice_context_create 255 (constRng 3)).policy ∧
    (dice_context_reset (dice_context_create 255 (constRng 3))).rng
      = (dice_context_create 255 (constRng 3)).rng ∧
    (dice_context_reset (dice_context_create 255 (constRng 3))).features = 255 ∧
    (dice_context_reset (dice_context_create 255 (constRng 3))).registry = [] ∧
    (dice_context_reset (dice_context_create 255 (constRng 3))).trace = [] ∧
    (dice_context_reset (dice_context_create 255 (constRng 3))).error = none ∧
    (dice_context_reset (dice_context_create 255 (constRng 3))).arena_used = 0 ∧
    dice_lookup_custom_die
        (dice_context_reset (dice_context_create 255 (constRng 3))) "F" = none ∧
    (dice_roll_expression (dice_context_reset (dice_context_create 255 (constRng 3)))
        "1dF").2 = ⟨0, false⟩ ∧
    (dice_roll_expression (dice_context_reset (dice_context_create 255 (constRng 3)))
        "1dF").1.error = some (.unknownCustomDie "F") :=
  c10_reset_clears_fate_registry 255 (constRng 3) (by decide)

/-- Drawing `n` values yields `n` values. -/
theorem drawList_length (r : RNG) (sd : Int) (n : Nat) :
    (drawList r sd n).length = n := by
  induction n generalizing r with
  | zero => simp [drawList]
  | succ n ih => simp [drawList, ih]

/-- Bounds on the RNG stream carry over to every drawn value. -/
theorem drawList_mem_bounds (sd : Int) (lo hi : Int) (n : Nat) : ∀ (r : RNG),
    (∀ j s, lo ≤ r.rollF j s ∧ r.rollF j s ≤ hi) →
    ∀ x ∈ drawList r sd n, lo ≤ x ∧ x ≤ hi := by
  induction n with
  | zero => intro r _; simp [drawList]
  | succ n ih =>
    intro r h x hx
    simp only [drawList, List.mem_cons] at hx
    rcases hx with h1 | h2
    · subst h1; exact h r.idx sd
    · exact ih { r with idx := r.idx + 1 } (fun j s => h j s) x h2

/-- When no draw is negative, the initial roll loop of
`evaluate_dice_filter` succeeds, advances the RNG by `n` draws, returns the
drawn values and touches nothing else in the context. -/
theorem rollPool_eq (sd : Int) (n : Nat) : ∀ (ctx : Context),
    (∀ j s, 0 ≤ ctx.rng.rollF j s) →
    rollPool ctx sd n =
      ({ ctx with rng := ctx.rng.advance n }, some (drawList ctx.rng sd n)) := by
  induction n with
  | zero =>
    intro ctx _
    have : ctx.rng.advance 0 = ctx.rng := by
      simp [RNG.advance]
    simp [rollPool, drawList, this]
  | succ n ih =>
    intro ctx h
    have h0 : ¬ (ctx.rng.rollF ctx.rng.idx sd < 0) := by
      have := h ctx.rng.idx sd; omega
    have hrec := ih { ctx with rng := { ctx.rng with idx := ctx.rng.idx + 1 } }
      (fun j s => h j s)
    have hadv : ({ ctx.rng with idx := ctx.rng.idx + 1 } : RNG).advance n
        = ctx.rng.advance (n + 1) := by
      simp [RNG.advance]; omega
    simp only [rollPool, RNG.roll, h0, if_false]
    rw [hrec]
    simp [drawList, hadv]

/-- The reroll count a die ends with never exceeds the starting count plus
the attempt budget. -/
theorem rerollOne_count_le (sides : Int) (op : BinOp) (v : Int) (fuel : Nat) :
    ∀ (ctx : Context) (roll : Int) (cnt : Nat) (p : Int × Nat),
    (rerollOne sides op v ctx roll cnt fuel).2 = some p → p.2 ≤ cnt + fuel := by
  induction fuel with
  | zero =>
    intro ctx roll cnt p hp
    simp [rerollOne] at hp
    cases hp
    simp
  | succ fuel ih =>
    intro ctx roll cnt p hp
    simp only [rerollOne] at hp
    rcases hm : cmpMatch op roll v with _ | b
    · rw [hm] at hp; simp at hp
    · rw [hm] at hp
      cases b with
      | true =>
        simp only [] at hp
        by_cases hn : ((trace_atomic_roll_selected ctx sides roll false).rng.roll sides).1 < 0
        · simp [hn] at hp
        · simp only [hn, if_false] at hp
          have := ih _ _ _ _ hp
          omega
      | false =>
        simp at hp
        cases hp
        omega

/-- Under a reroll condition that every possible d6 draw satisfies
(`r>=1` with all draws at least 1), the per-die loop consumes its whole
attempt budget and ends with the reroll count saturated, leaving the RNG
function and the error slot as they were. -/
theorem rerollOne_exhausts (fuel : Nat) : ∀ (ctx : Context) (roll : Int) (cnt : Nat),
    (∀ n s, 1 ≤ ctx.rng.rollF n s) → 1 ≤ roll →
    ∃ ctx' r', rerollOne 6 .gte 1 ctx roll cnt fuel = (ctx', some (r', cnt + fuel)) ∧
      ctx'.rng.rollF = ctx.rng.rollF ∧ ctx'.error = ctx.error := by
  induction fuel with
  | zero =>
    intro ctx roll cnt h h1
    exact ⟨ctx, roll, rfl, rfl, rfl⟩
  | succ fuel ih =>
    intro ctx roll cnt h h1
    have hm : cmpMatch .gte roll 1 = some true := by
      simp [cmpMatch]; omega
    have hnr : 1 ≤ ctx.rng.rollF ctx.rng.idx 6 := h _ _
    have hcond : ¬ (ctx.rng.rollF ctx.rng.idx 6 < 0) := by omega
    obtain ⟨ctx', r', heq, hf, he⟩ :=
      ih { trace_atomic_roll_selected ctx 6 roll false with
             rng := { ctx.rng with idx := ctx.rng.idx + 1 } }
        (ctx.rng.rollF ctx.rng.idx 6) (cnt + 1) (fun n s => h n s) hnr
    refine ⟨ctx', r', ?_, ?_, ?_⟩
    · simp only [rerollOne, hm, RNG.roll, trace_atomic_roll_selected, hcond, if_false]
      rw [show cnt + (fuel + 1) = (cnt + 1) + fuel by omega]
      convert heq using 2
    · rw [hf]
    · rw [he]; rfl

/-- A reroll filter `r>=1` over a positive pool of d6 dice always ends in
the reroll-limit hard error on the first die, with result 0. -/
theorem filter_reroll_gte1 (ctx : Context) (cnt : Int) (h1 : 0 < cnt)
    (h : ∀ n s, 1 ≤ ctx.rng.rollF n s) :
    ∃ ctx', evaluate_dice_filter ctx cnt 6 (some ⟨0, false, false, true, .gte, 1, true⟩)
      = (ctx', 0) ∧ ctx'.error = some (.rerollLimit 1) := by
  have h0 : ∀ j s, 0 ≤ ctx.rng.rollF j s := fun j s => le_trans (by norm_num) (h j s)
  have hpool := rollPool_eq 6 cnt.toNat ctx h0
  obtain ⟨m, hm⟩ : ∃ m, cnt.toNat = m + 1 := ⟨cnt.toNat - 1, by omega⟩
  obtain ⟨ctx', r', heq, hf, he⟩ :=
    rerollOne_exhausts 100 { ctx with rng := ctx.rng.advance (m + 1) }
      (ctx.rng.rollF ctx.rng.idx 6) 0 (fun n s => h n s) (h _ _)
  refine ⟨setError ctx' (.rerollLimit 1), ?_, by simp [setError]⟩
  simp only [evaluate_dice_filter]
  rw [hpool, hm]
  simp only [drawList, rerollDice, heq]
  simp

/-- The claim C4 theorem: the per-die reroll loop performs at most 100
attempts (the loop is bounded, so evaluation always terminates), and the
always-true condition `r>=1` on a d6 — every draw being at least 1 — makes
`1d6r>=1` fail hard with the reroll-limit (safety-limit) error instead of
looping. -/
theorem c4_reroll_capped_and_safety_error :
    (∀ (sides : Int) (op : BinOp) (v : Int) (ctx : Context) (roll : Int)
        (p : Int × Nat),
      (rerollOne sides op v ctx roll 0 100).2 = some p → p.2 ≤ 100) ∧
    (∀ (rng : RNG), (∀ n s, 1 ≤ rng.rollF n s) →
      (dice_roll_expression (baseCtx rng) "1d6r>=1").2 = ⟨0, false⟩ ∧
      (dice_roll_expression (baseCtx rng) "1d6r>=1").1.error
        = some (.rerollLimit 1)) := by
  constructor
  · intro sides op v ctx roll p hp
    have := rerollOne_count_le sides op v 100 ctx roll 0 p hp
    omega
  · intro rng h
    have hparse : dice_parse (baseCtx rng) "1d6r>=1" =
        (baseCtx rng, some (.diceOp .filter (some (.literal 1)) (some (.literal 6))
          (some (.literal 1)) (some ⟨0, false, false, true, .gte, 1, true⟩)
          none none)) := rfl
    obtain ⟨ctx', heqf, herr⟩ := filter_reroll_gte1 (baseCtx rng) 1 (by norm_num)
      (fun n s => h n s)
    have hrun : dice_roll_expression (baseCtx rng) "1d6r>=1" = (ctx', ⟨0, false⟩) := by
      simp only [dice_roll_expression, hparse]
      simp only [dice_evaluate]
      norm_num
      simp only [evalStandardDice]
      norm_num [show ((baseCtx rng).policy.max_sides) = 1000000 from rfl,
        show ((baseCtx rng).policy.max_dice_count) = 1000 from rfl]
      rw [heqf]
      simp [herr]
    rw [hrun]
    exact ⟨rfl, herr⟩

/-- Claim C4 witness: a die that does not match its reroll condition ends
within the cap, and with a constant all-3 RNG stream `1d6r>=1` fails with
the reroll-limit error. -/
theorem c4_witness :
    ((3 : Int), (0 : Nat)).2 ≤ 100 ∧
    (dice_roll_expression (baseCtx (constRng 3)) "1d6r>=1").2 = ⟨0, false⟩ ∧
    (dice_roll_expression (baseCtx (constRng 3)) "1d6r>=1").1.error
      = some (.rerollLimit 1) :=
  ⟨c4_reroll_capped_and_safety_error.1 6 .gt 100 (baseCtx (constRng 3)) 3 (3, 0)
      (by decide),
   (c4_reroll_capped_and_safety_error.2 (constRng 3)
      (by intro n s; show (1 : Int) ≤ 3; norm_num)).1,
   (c4_reroll_capped_and_safety_error.2 (constRng 3)
      (by intro n s; show (1 : Int) ≤ 3; norm_num)).2⟩

/-- When every roll gets the same verdict function under the comparison,
the conditional-selection loop pairs each roll with its verdict. -/
theorem condSelect_of_forall (op : BinOp) (v : Int) (f : Int → Bool) :
    ∀ (rolls : List Int), (∀ r ∈ rolls, cmpMatch op r v = some (f r)) →
    condSelect op v rolls = some (rolls.map fun r => (r, f r)) := by
  intro rolls
  induction rolls with
  | nil => intro _; simp [condSelect]
  | cons a t ih =>
    intro h
    simp only [condSelect, h a (by simp), ih (fun r hr => h r (by simp [hr]))]
    simp

/-- A conditional filter whose comparison yields the verdict `f r` on every
drawn value traces every die with its verdict and sums the matching ones. -/
theorem filter_conditional_eq (ctx : Context) (cnt sd : Int) (op : BinOp) (v : Int)
    (f : Int → Bool)
    (h0 : ∀ j s, 0 ≤ ctx.rng.rollF j s)
    (hf : ∀ r ∈ drawList ctx.rng sd cnt.toNat, cmpMatch op r v = some (f r)) :
    evaluate_dice_filter ctx cnt sd (some ⟨0, false, false, true, op, v, false⟩) =
      (appendTrace { ctx with rng := ctx.rng.advance cnt.toNat }
        ((drawList ctx.rng sd cnt.toNat).map fun r => ⟨sd, r, f r⟩),
       ((drawList ctx.rng sd cnt.toNat).filter f).sum) := by
  simp only [evaluate_dice_filter]
  rw [rollPool_eq sd cnt.toNat ctx h0]
  simp only [condSelect_of_forall op v f _ hf]
  norm_num
  simp only [List.filter_map, List.map_map]
  constructor
  · rfl
  · rw [show ((fun (p : Int × Bool) => p.1) ∘ fun r => (r, f r)) = fun r => r from rfl,
        show ((fun (p : Int × Bool) => p.2) ∘ fun r => (r, f r)) = f from rfl]
    simp

/-- The claim C6 theorem: with an RNG rolling in `[1, 6]`, the conditional
selection `s>6` on a d6 pool always yields 0 and `s>=1` always yields the
sum of all rolled dice; and `3d6s>6` evaluates to 0 with success, its trace
being exactly the 3 atomic rolls, each marked unselected. -/
theorem c6_conditional_selection_bounds :
    (∀ (ctx : Context) (cnt : Int),
      (∀ j s, 1 ≤ ctx.rng.rollF j s ∧ ctx.rng.rollF j s ≤ 6) →
      (evaluate_dice_filter ctx cnt 6 (some ⟨0, false, false, true, .gt, 6, false⟩)).2
        = 0) ∧
    (∀ (ctx : Context) (cnt : Int),
      (∀ j s, 1 ≤ ctx.rng.rollF j s ∧ ctx.rng.rollF j s ≤ 6) →
      (evaluate_dice_filter ctx cnt 6 (some ⟨0, false, false, true, .gte, 1, false⟩)).2
        = (drawList ctx.rng 6 cnt.toNat).sum) ∧
    (∀ (rng : RNG), (∀ j s, 1 ≤ rng.rollF j s ∧ rng.rollF j s ≤ 6) →
      (dice_roll_expression (baseCtx rng) "3d6s>6").2 = ⟨0, true⟩ ∧
      (dice_roll_expression (baseCtx rng) "3d6s>6").1.trace
        = (drawList rng 6 3).map (fun r => ⟨6, r, false⟩) ∧
      (dice_roll_expression (baseCtx rng) "3d6s>6").1.trace.length = 3 ∧
      ∀ e ∈ (dice_roll_expression (baseCtx rng) "3d6s>6").1.trace,
        e.selected = false) := by
  have key : ∀ (ctx : Context) (cnt : Int),
      (∀ j s, 1 ≤ ctx.rng.rollF j s ∧ ctx.rng.rollF j s ≤ 6) →
      evaluate_dice_filter ctx cnt 6 (some ⟨0, false, false, true, .gt, 6, false⟩) =
        (appendTrace { ctx with rng := ctx.rng.advance cnt.toNat }
          ((drawList ctx.rng 6 cnt.toNat).map fun r => ⟨6, r, false⟩), 0) := by
    intro ctx cnt hb
    have h0 : ∀ j s, 0 ≤ ctx.rng.rollF j s := fun j s => le_trans (by norm_num) (hb j s).1
    have := filter_conditional_eq ctx cnt 6 .gt 6 (fun _ => false) h0 ?hf
    · rw [this]
      simp
    case hf =>
      intro r hr
      have h6 := (drawList_mem_bounds 6 1 6 cnt.toNat ctx.rng hb r hr).2
      simp [cmpMatch]
      omega
  refine ⟨?_, ?_, ?_⟩
  · intro ctx cnt hb
    rw [key ctx cnt hb]
  · intro ctx cnt hb
    have h0 : ∀ j s, 0 ≤ ctx.rng.rollF j s := fun j s => le_trans (by norm_num) (hb j s).1
    have := filter_conditional_eq ctx cnt 6 .gte 1 (fun _ => true) h0 ?hf
    · rw [this]
      simp
    case hf =>
      intro r hr
      have h1 := (drawList_mem_bounds 6 1 6 cnt.toNat ctx.rng hb r hr).1
      simp [cmpMatch]
      omega
  · intro rng hb
    have hparse : dice_parse (baseCtx rng) "3d6s>6" =
        (baseCtx rng, some (.diceOp .filter (some (.literal 3)) (some (.literal 6))
          (some (.literal 6)) (some ⟨0, false, false, true, .gt, 6, false⟩)
          none none)) := rfl
    have hfilter := key (baseCtx rng) 3 hb
    have hrun : dice_roll_expression (baseCtx rng) "3d6s>6" =
        (appendTrace { baseCtx rng with rng := rng.advance 3 }
          ((drawList rng 6 3).map fun r => ⟨6, r, false⟩), ⟨0, true⟩) := by
      simp only [dice_roll_expression, hparse]
      simp only [dice_evaluate]
      norm_num
      simp only [evalStandardDice]
      norm_num [show ((baseCtx rng).policy.max_sides) = 1000000 from rfl,
        show ((baseCtx rng).policy.max_dice_count) = 1000 from rfl]
      rw [hfilter]
      simp [appendTrace, baseCtx]
    rw [hrun]
    refine ⟨rfl, by simp [appendTrace, baseCtx], ?_, ?_⟩
    · simp [appendTrace, baseCtx, drawList_length]
    · intro e he
      simp [appendTrace, baseCtx] at he
      obtain ⟨r, _, hre⟩ := he
      rw [← hre]

/-- Claim C6 witness: with the constant all-4 RNG, `s>6` on two d6 dice
yields 0, `s>=1` yields the full sum, and `3d6s>6` succeeds with value 0
and exactly 3 trace entries. -/
theorem c6_witness :
    (evaluate_dice_filter (baseCtx (constRng 4)) 2 6
      (some ⟨0, false, false, true, .gt, 6, false⟩)).2 = 0 ∧
    (evaluate_dice_filter (baseCtx (constRng 4)) 2 6
      (some ⟨0, false, false, true, .gte, 1, false⟩)).2
      = (drawList (baseCtx (constRng 4)).rng 6 (2 : Int).toNat).sum ∧
    (dice_roll_expression (baseCtx (constRng 4)) "3d6s>6").2 = ⟨0, true⟩ ∧
    (dice_roll_expression (baseCtx (constRng 4)) "3d6s>6").1.trace.length = 3 :=
  ⟨c6_conditional_selection_bounds.1 (baseCtx (constRng 4)) 2
      (by intro j s; exact ⟨by show (1 : Int) ≤ 4; norm_num,
        by show (4 : Int) ≤ 6; norm_num⟩),
   c6_conditional_selection_bounds.2.1 (baseCtx (constRng 4)) 2
      (by intro j s; exact ⟨by show (1 : Int) ≤ 4; norm_num,
        by show (4 : Int) ≤ 6; norm_num⟩),
   (c6_conditional_selection_bounds.2.2 (constRng 4)
      (by intro j s; exact ⟨by show (1 : Int) ≤ 4; norm_num,
        by show (4 : Int) ≤ 6; norm_num⟩)).1,
   (c6_conditional_selection_bounds.2.2 (constRng 4)
      (by intro j s; exact ⟨by show (1 : Int) ≤ 4; norm_num,
        by show (4 : Int) ≤ 6; norm_num⟩)).2.2.1⟩

/-- Every formatted roll line ends in a newline, so it is nonempty. -/
theorem entryLine_length_pos (e : TraceEntry) : 1 ≤ (entryLine e).length := by
  simp only [entryLine, String.length_append]
  rw [show ("\n".length) = 1 from rfl]
  omega

/-- When everything fits, the formatting loop writes all entry lines in
order and reports the total number of bytes written. -/
theorem formatLoop_fits (bufferSize : Nat) :
    ∀ (entries : List TraceEntry) (pos : Nat) (out : String),
    pos + ((entries.map fun e => (entryLine e).length).sum) < bufferSize →
    formatLoop bufferSize entries pos out
      = some (pos + (entries.map fun e => (entryLine e).length).sum,
              out ++ (entries.map entryLine).foldr (· ++ ·) "") := by
  intro entries
  induction entries with
  | nil =>
    intro pos out _
    simp [formatLoop]
  | cons e rest ih =>
    intro pos out hfit
    simp only [List.map_cons, List.sum_cons] at hfit
    have hlen := entryLine_length_pos e
    have hc1 : pos < bufferSize - 1 := by omega
    have hc2 : ¬ ((entryLine e).length ≥ bufferSize - pos) := by omega
    have hrec := ih (pos + (entryLine e).length) (out ++ entryLine e) (by omega)
    simp only [formatLoop, hc1, if_true, hc2, if_false]
    rw [hrec]
    simp only [List.map_cons, List.sum_cons, List.foldr_cons]
    rw [String.append_assoc, Nat.add_assoc]

/-- Claim C8 counterexample: with a 30-byte buffer, one selected d6 roll of
3 does not fit after the 25-byte header, and `dice_format_trace_string`
returns `-1` — an error — instead of skipping the entry and reporting
success (a nonnegative byte count). -/
theorem c8_counterexample_overflow_is_error :
    dice_format_trace_string [⟨6, 3, true⟩] 30 = (-1, "") ∧
    ¬ ((dice_format_trace_string [⟨6, 3, true⟩] 30).1 ≥ 0) := by
  refine ⟨by decide, by decide⟩

/-- The claim C8 amended theorem: for every nonempty trace that fits, the
formatter writes the header followed by one `  dN -> value` line per
atomic roll with `*` appended exactly when the roll is selected, returning
the byte count; whenever the buffer has room past the header but is too
small for the first roll line, it fails with `-1` rather than skipping
the remaining entries with success; and the only skip-with-success case
is the corner where the cursor already sits on the buffer's last byte
(a buffer of exactly header length plus one), which reports the header
alone as success for every nonempty trace. -/
theorem c8_amended_format_shape_and_error :
    (∀ (entries : List TraceEntry) (bufferSize : Nat),
      entries ≠ [] →
      traceHeader.length + (entries.map fun e => (entryLine e).length).sum
        < bufferSize →
      dice_format_trace_string entries bufferSize =
        (Int.ofNat (traceHeader.length
            + (entries.map fun e => (entryLine e).length).sum),
         traceHeader ++ (entries.map entryLine).foldr (· ++ ·) "")) ∧
    (∀ (e : TraceEntry) (rest : List TraceEntry) (bufferSize : Nat),
      traceHeader.length < bufferSize - 1 →
      bufferSize ≤ traceHeader.length + (entryLine e).length →
      dice_format_trace_string (e :: rest) bufferSize = (-1, "")) ∧
    (∀ (entries : List TraceEntry), entries ≠ [] →
      dice_format_trace_string entries (traceHeader.length + 1) =
        (Int.ofNat traceHeader.length, traceHeader)) := by
  refine ⟨?_, ?_, ?_⟩
  · intro entries bufferSize hne hfit
    have hh : traceHeader.length = 25 := rfl
    have hsum : 0 ≤ (entries.map fun e => (entryLine e).length).sum :=
      Nat.zero_le _
    have hb0 : ¬ (bufferSize = 0) := by omega
    have hlen0 : ¬ (entries.length = 0) := by
      simpa using hne
    have hhead : ¬ (traceHeader.length ≥ bufferSize) := by omega
    simp only [dice_format_trace_string, hb0, hlen0, hhead, if_false]
    rw [formatLoop_fits bufferSize entries traceHeader.length traceHeader hfit]
  · intro e rest bufferSize h1 h2
    have hh : traceHeader.length = 25 := rfl
    rw [hh] at h1 h2
    have hb0 : ¬ (bufferSize = 0) := by omega
    have hlen0 : ¬ ((e :: rest).length = 0) := by simp
    have hhead : ¬ (traceHeader.length ≥ bufferSize) := by rw [hh]; omega
    simp only [dice_format_trace_string, hb0, hlen0, hhead, if_false]
    have hc1 : traceHeader.length < bufferSize - 1 := by rw [hh]; omega
    have hc2 : (entryLine e).length ≥ bufferSize - traceHeader.length := by
      rw [hh]; omega
    simp only [formatLoop, hc1, if_true, hc2, if_false]
  · intro entries hne
    have hb0 : ¬ (traceHeader.length + 1 = 0) := by omega
    have hlen0 : ¬ (entries.length = 0) := by simpa using hne
    have hhead : ¬ (traceHeader.length ≥ traceHeader.length + 1) := by omega
    simp only [dice_format_trace_string, hb0, hlen0, hhead, if_false]
    rcases entries with _ | ⟨e, rest⟩
    · simp at hne
    · have hc1 : ¬ (traceHeader.length < traceHeader.length + 1 - 1) := by omega
      simp only [formatLoop, hc1, if_false]

/-- Claim C8 witness: for a single selected d6 roll of 3, a 100-byte buffer
formats to the header plus one starred line (36 bytes), a 30-byte buffer
(too small for the 11-byte roll line after the 25-byte header) errors with
`-1`, and a 26-byte buffer reports just the header as success. -/
theorem c8_witness :
    dice_format_trace_string [⟨6, 3, true⟩] 100 =
      (Int.ofNat (traceHeader.length
          + (([⟨6, 3, true⟩] : List TraceEntry).map
              fun e => (entryLine e).length).sum),
       traceHeader ++ (([⟨6, 3, true⟩] : List TraceEntry).map entryLine).foldr
          (· ++ ·) "") ∧
    dice_format_trace_string [⟨6, 3, true⟩] 30 = (-1, "") ∧
    dice_format_trace_string [⟨6, 3, true⟩] (traceHeader.length + 1) =
      (Int.ofNat traceHeader.length, traceHeader) :=
  ⟨c8_amended_format_shape_and_error.1 [⟨6, 3, true⟩] 100 (by decide) (by decide),
   c8_amended_format_shape_and_error.2.1 ⟨6, 3, true⟩ [] 30 (by decide) (by decide),
   c8_amended_format_shape_and_error.2.2 [⟨6, 3, true⟩] (by decide)⟩

/-- The basic roll loop only appends unselected entries. -/
theorem basicRolls_trace (sd : Int) (n : Nat) : ∀ (ctx : Context),
    ∀ e ∈ (basicRolls ctx sd n).1.trace, e ∈ ctx.trace ∨ e.selected = false := by
  induction n with
  | zero =>
    intro ctx e he
    simp only [basicRolls] at he
    exact Or.inl he
  | succ n ih =>
    intro ctx e he
    simp only [basicRolls, RNG.roll] at he
    by_cases hr : ctx.rng.rollF ctx.rng.idx sd < 0
    · simp only [hr, if_true] at he
      exact Or.inl he
    · simp only [hr, if_false] at he
      rcases hb : basicRolls (trace_atomic_roll
          { ctx with rng := { ctx.rng with idx := ctx.rng.idx + 1 } } sd
          (ctx.rng.rollF ctx.rng.idx sd)) sd n with ⟨ctx3, os⟩
      rw [hb] at he
      have hmem : e ∈ ctx3.trace := by
        cases os <;> simpa using he
      have := ih (trace_atomic_roll
          { ctx with rng := { ctx.rng with idx := ctx.rng.idx + 1 } } sd
          (ctx.rng.rollF ctx.rng.idx sd)) e (by rw [hb]; exact hmem)
      rcases this with h1 | h2
      · simp only [trace_atomic_roll, trace_atomic_roll_selected,
          List.mem_append, List.mem_singleton] at h1
        rcases h1 with h1a | h1b
        · exact Or.inl h1a
        · right; rw [h1b]
      · exact Or.inr h2

/-- The custom roll loop only appends unselected entries. -/
theorem customRolls_trace (die : CustomDie) (n : Nat) : ∀ (ctx : Context),
    ∀ e ∈ (customRolls ctx die n).1.trace, e ∈ ctx.trace ∨ e.selected = false := by
  induction n with
  | zero =>
    intro ctx e he
    simp only [customRolls] at he
    exact Or.inl he
  | succ n ih =>
    intro ctx e he
    simp only [customRolls, RNG.rand] at he
    rcases hb : customRolls (trace_atomic_roll _ _ _) die n with ⟨ctx3, s⟩
    rw [hb] at he
    simp only at he
    have := ih _ e (by rw [hb]; exact he)
    rcases this with h1 | h2
    · simp only [trace_atomic_roll, trace_atomic_roll_selected,
        List.mem_append, List.mem_singleton] at h1
      rcases h1 with h1a | h1b
      · exact Or.inl h1a
      · right; rw [h1b]
    · exact Or.inr h2

/-- A Custom dice operation only appends unselected entries. -/
theorem evalCustomDice_trace (ctx : Context) (count : Int)
    (cn : Option String) (cd : Option CustomDie) :
    ∀ e ∈ (evalCustomDice ctx count cn cd).1.trace,
      e ∈ ctx.trace ∨ e.selected = false := by
  intro e he
  rcases cd with _ | die
  · rcases cn with _ | nm
    · simp [evalCustomDice, setError] at he; exact Or.inl he
    · simp only [evalCustomDice] at he
      rcases hl : dice_lookup_custom_die ctx nm with _ | die
      · rw [hl] at he; simp [setError] at he; exact Or.inl he
      · rw [hl] at he
        simp only at he
        by_cases hz : die.sides.length = 0
        · simp [hz, setError] at he; exact Or.inl he
        · simp only [hz, if_false] at he
          rcases hb : customRolls ctx die count.toNat with ⟨ctx3, s⟩
          rw [hb] at he
          simp only at he
          exact customRolls_trace die count.toNat ctx e (by rw [hb]; exact he)
  · simp only [evalCustomDice] at he
    by_cases hz : die.sides.length = 0
    · simp [hz, setError] at he; exact Or.inl he
    · simp only [hz, if_false] at he
      rcases hb : customRolls ctx die count.toNat with ⟨ctx3, s⟩
      rw [hb] at he
      simp only at he
      exact customRolls_trace die count.toNat ctx e (by rw [hb]; exact he)

/-- A standard (non-Filter) dice operation only appends unselected
entries. -/
theorem evalStandardDice_trace (ctx : Context) (dt : DiceType) (count sd : Int)
    (sel : Option Selection) (hdt : dt ≠ .filter) :
    ∀ e ∈ (evalStandardDice ctx dt count sd sel).1.trace,
      e ∈ ctx.trace ∨ e.selected = false := by
  intro e he
  simp only [evalStandardDice] at he
  by_cases h1 : sd ≤ 0
  · simp [h1, setError] at he; exact Or.inl he
  · simp only [h1, if_false] at he
    by_cases h2 : sd > ctx.policy.max_sides
    · simp [h2, setError] at he; exact Or.inl he
    · simp only [h2, if_false] at he
      simp only [hdt, if_false] at he
      rcases hb : basicRolls ctx sd count.toNat with ⟨ctx3, os⟩
      rw [hb] at he
      have hmem : e ∈ ctx3.trace := by
        cases os <;> simpa using he
      exact basicRolls_trace sd count.toNat ctx e (by rw [hb]; exact hmem)

/-- The binary-operator switch leaves the trace untouched. -/
theorem applyBinaryOp_trace (ctx : Context) (op : BinOp) (a b : Int) :
    (applyBinaryOp ctx op a b).1.trace = ctx.trace := by
  cases op <;> simp [applyBinaryOp, setError] <;> split <;> simp [setError]

/-- The claim C9 theorem: evaluating any AST with no Filter dice operation
— in particular any Basic or Custom dice term with no filter modifier —
appends only trace entries with `selected = false`; equivalently, only
Filter operations ever append entries with `selected = true`. -/
theorem c9_non_filter_rolls_unselected : (ast : AST) → ∀ (ctx : Context),
    noFilter ast = true →
    ∀ e ∈ (dice_evaluate ctx ast).1.trace, e ∈ ctx.trace ∨ e.selected = false
  | .literal v => by
    intro ctx _ e he
    simp only [dice_evaluate] at he
    exact Or.inl he
  | .functionCall nm => by
    intro ctx _ e he
    simp only [dice_evaluate, setError] at he
    exact Or.inl he
  | .annot k v child => by
    intro ctx h e he
    simp only [noFilter] at h
    simp only [dice_evaluate] at he
    exact c9_non_filter_rolls_unselected child ctx h e he
  | .binaryOp op l r => by
    intro ctx h e he
    simp only [noFilter, Bool.and_eq_true] at h
    obtain ⟨hl, hr⟩ := h
    simp only [dice_evaluate] at he
    by_cases hs : (dice_evaluate ctx l).2.success
    · simp only [hs, Bool.not_true, Bool.false_eq_true, if_false] at he
      have hstep : ∀ x ∈ (dice_evaluate (dice_evaluate ctx l).1 r).1.trace,
          x ∈ ctx.trace ∨ x.selected = false := by
        intro x hx
        rcases c9_non_filter_rolls_unselected r (dice_evaluate ctx l).1 hr x hx
          with h1 | h2
        · exact c9_non_filter_rolls_unselected l ctx hl x h1
        · exact Or.inr h2
      by_cases hs2 : (dice_evaluate (dice_evaluate ctx l).1 r).2.success
      · simp only [hs2, Bool.not_true, Bool.false_eq_true, if_false] at he
        rw [applyBinaryOp_trace] at he
        exact hstep e he
      · simp only [hs2, Bool.not_false, if_true] at he
        exact hstep e he
    · simp only [Bool.not_eq_true'] at hs
      simp only [hs, Bool.not_false, if_true] at he
      exact c9_non_filter_rolls_unselected l ctx hl e he
  | .diceOp dt c s m sel cn cd => by
    intro ctx h e he
    rw [noFilter.eq_def] at h
    dsimp only at h
    simp only [Bool.and_eq_true, decide_eq_true_eq] at h
    obtain ⟨⟨hdt, hc⟩, hsopt⟩ := h
    rw [dice_evaluate.eq_def] at he
    dsimp only at he
    have hcp : ∀ x ∈ (match c with
        | some cAst => dice_evaluate ctx cAst
        | none => (ctx, ⟨1, true⟩)).1.trace, x ∈ ctx.trace ∨ x.selected = false := by
      rcases c with _ | cAst
      · intro x hx; exact Or.inl hx
      · intro x hx
        exact c9_non_filter_rolls_unselected cAst ctx (by simpa using hc) x hx
    set cp := (match c with
        | some cAst => dice_evaluate ctx cAst
        | none => (ctx, ⟨1, true⟩)) with hcpdef
    by_cases hcs : cp.2.success
    · simp only [hcs, Bool.not_true, Bool.false_eq_true, if_false] at he
      by_cases h1 : cp.2.value ≤ 0
      · simp only [h1, if_true] at he
        simp only [setError] at he
        exact hcp e he
      · simp only [h1, if_false] at he
        by_cases h2 : cp.2.value > cp.1.policy.max_dice_count
        · simp only [h2, if_true] at he
          simp only [setError] at he
          exact hcp e he
        · simp only [h2, if_false] at he
          by_cases h3 : dt = .custom
          · simp only [h3, if_true] at he
            rcases evalCustomDice_trace cp.1 cp.2.value cn cd e he with hA | hB
            · exact hcp e hA
            · exact Or.inr hB
          · simp only [h3, if_false] at he
            have hsp : ∀ x ∈ (match s with
                | some sAst => dice_evaluate cp.1 sAst
                | none => (cp.1, ⟨0, false⟩)).1.trace,
                x ∈ ctx.trace ∨ x.selected = false := by
              rcases s with _ | sAst
              · intro x hx; exact hcp x hx
              · intro x hx
                rcases c9_non_filter_rolls_unselected sAst cp.1
                    (by simpa using hsopt) x hx with hx1 | hx2
                · exact hcp x hx1
                · exact Or.inr hx2
            set sp := (match s with
                | some sAst => dice_evaluate cp.1 sAst
                | none => (cp.1, ⟨0, false⟩)) with hspdef
            by_cases hss : sp.2.success
            · simp only [hss, Bool.not_true, Bool.false_eq_true, if_false] at he
              rcases evalStandardDice_trace sp.1 dt cp.2.value sp.2.value sel hdt e he
                with hA | hB
              · exact hsp e hA
              · exact Or.inr hB
            · simp only [Bool.not_eq_true'] at hss
              simp only [hss, Bool.not_false, if_true] at he
              exact hsp e he
    · simp only [Bool.not_eq_true'] at hcs
      simp only [hcs, Bool.not_false, if_true] at he
      exact hcp e he

/-- Claim C9 witness: a Basic `2d6` term under the constant all-3 RNG
traces the entry `(6, 3, unselected)`, which is indeed unselected. -/
theorem c9_witness :
    (⟨6, 3, false⟩ : TraceEntry) ∈ (baseCtx (constRng 3)).trace ∨
    (⟨6, 3, false⟩ : TraceEntry).selected = false :=
  c9_non_filter_rolls_unselected
    (.diceOp .basic (some (.literal 2)) (some (.literal 6)) none none none none)
    (baseCtx (constRng 3)) (by decide) ⟨6, 3, false⟩ (by decide)

/-- Setting position `m` of a list to `a` and pulling the old occupant `y`
to the front permutes consing `a` onto the original list. -/
theorem head_set_perm {α : Type} : ∀ (t : List α) (m : Nat) (y a : α),
    t.get? m = some y → List.Perm (y :: t.set m a) (a :: t)
  | [], m, y, a, h => by simp at h
  | b :: t, 0, y, a, h => by
    simp only [List.get?] at h
    obtain rfl : b = y := Option.some.inj h
    have h1 : (b :: t).set 0 a = a :: t := rfl
    rw [h1]
    exact List.Perm.swap a b t
  | b :: t, m + 1, y, a, h => by
    simp only [List.get?] at h
    have ih := head_set_perm t m y a h
    have h1 : y :: (b :: t).set (m + 1) a = y :: b :: t.set m a := rfl
    rw [h1]
    exact (List.Perm.swap b y _).trans ((List.Perm.cons b ih).trans (List.Perm.swap a b t))

/-- Exchanging two occupied slots of a list permutes it. -/
theorem set_swap_perm {α : Type} : ∀ (l : List α) (i j : Nat) (x y : α),
    l.get? i = some x → l.get? j = some y → List.Perm ((l.set i y).set j x) l
  | [], i, j, x, y, hx, hy => by simp at hx
  | a :: t, 0, 0, x, y, hx, hy => by
    simp only [List.get?] at hx hy
    obtain rfl : a = x := Option.some.inj hx
    have h1 : ((a :: t).set 0 y).set 0 a = a :: t := rfl
    rw [h1]
  | a :: t, 0, j + 1, x, y, hx, hy => by
    simp only [List.get?] at hx hy
    obtain rfl : a = x := Option.some.inj hx
    have h1 : ((a :: t).set 0 y).set (j + 1) a = y :: t.set j a := rfl
    rw [h1]
    exact head_set_perm t j y a hy
  | a :: t, i + 1, 0, x, y, hx, hy => by
    simp only [List.get?] at hx hy
    obtain rfl : a = y := Option.some.inj hy
    have h1 : ((a :: t).set (i + 1) a).set 0 x = x :: t.set i a := rfl
    rw [h1]
    exact head_set_perm t i x a hx
  | a :: t, i + 1, j + 1, x, y, hx, hy => by
    simp only [List.get?] at hx hy
    have h1 : ((a :: t).set (i + 1) y).set (j + 1) x = a :: (t.set i y).set j x := rfl
    rw [h1]
    exact List.Perm.cons a (set_swap_perm t i j x y hx hy)

/-- A single exchange-sort swap permutes the pair array. -/
theorem swapL_perm (l : List (Int × Nat)) (i j : Nat) : List.Perm (swapL l i j) l := by
  unfold swapL
  rcases hx : l.get? i with _ | x
  · simp
  · rcases hy : l.get? j with _ | y
    · simp
    · exact set_swap_perm l i j x y hx hy

/-- A conditional exchange-sort swap permutes the pair array. -/
theorem ite_swap_perm (c : Prop) [Decidable c] (l : List (Int × Nat)) (i j : Nat) :
    List.Perm (if c then swapL l i j else l) l := by
  split
  · exact swapL_perm l i j
  · exact List.Perm.refl l

/-- The inner exchange-sort loop permutes the pair array. -/
theorem innerLoop_perm (high : Bool) (i : Nat) : ∀ (steps : Nat) (l : List (Int × Nat)) (j : Nat),
    List.Perm (innerLoop high i l j steps) l
  | 0, l, j => by simp [innerLoop]
  | steps + 1, l, j => by
    simp only [innerLoop]
    exact (innerLoop_perm high i steps _ (j + 1)).trans (ite_swap_perm _ l i j)

/-- The outer exchange-sort loop permutes the pair array. -/
theorem sortLoop_perm (high : Bool) (n : Nat) : ∀ (steps : Nat) (l : List (Int × Nat)) (i : Nat),
    List.Perm (sortLoop high n l i steps) l
  | 0, l, i => by simp [sortLoop]
  | steps + 1, l, i => by
    simp only [sortLoop]
    exact (sortLoop_perm high n steps _ (i + 1)).trans (innerLoop_perm high i _ l (i + 1))

/-- The exchange sort of the count-based branch permutes the
`(value, original index)` pair array. -/
theorem exchangeSort_perm (high : Bool) (l : List (Int × Nat)) :
    List.Perm (exchangeSort high l) l :=
  sortLoop_perm high l.length (l.length - 1) l 0

/-- Pointwise description of the selected-flag fold of the count-based
branch: a slot holds `true` afterwards iff it was covered or already did. -/
theorem foldSet_getElem (ps : List (Int × Nat)) : ∀ (s : List Bool) (i : Nat),
    (ps.foldl (fun s p => s.set p.2 true) s)[i]? =
      if i ∈ ps.map (fun p => p.2) ∧ i < s.length then some true else s[i]? := by
  induction ps with
  | nil => intro s i; simp
  | cons p ps ih =>
    intro s i
    simp only [List.foldl_cons]
    rw [ih (s.set p.2 true) i]
    simp only [List.length_set, List.map_cons, List.mem_cons, List.getElem?_set]
    by_cases h1 : i ∈ ps.map (fun p => p.2) ∧ i < s.length
    · simp [h1, h1.1, h1.2]
    · simp only [h1, if_false]
      by_cases h2 : p.2 = i
      · subst h2
        by_cases h3 : p.2 < s.length
        · simp [h3]
        · simp [h3]
          omega
      · simp only [h2, if_false]
        have : ¬ ((i = p.2 ∨ i ∈ ps.map (fun p => p.2)) ∧ i < s.length) := by
          rintro ⟨hA | hB, hC⟩
          · exact h2 hA.symm
          · exact h1 ⟨hB, hC⟩
        rw [if_neg this]

/-- When the fold covers every index below `n`, it turns the all-`false`
flag array into the all-`true` one. -/
theorem foldSet_replicate (ps : List (Int × Nat)) (n : Nat)
    (hcov : ∀ i < n, i ∈ ps.map (fun p => p.2)) :
    ps.foldl (fun s p => s.set p.2 true) (List.replicate n false) = List.replicate n true := by
  apply List.ext_getElem?
  intro i
  rw [foldSet_getElem]
  simp only [List.length_replicate, List.getElem?_replicate]
  by_cases h : i < n
  · simp [hcov i h, h]
  · simp [h]

/-- Zipping a list with an equally long constant `true` list pairs every
element with `true`. -/
theorem zip_replicate_true : ∀ (l : List Int),
    l.zip (List.replicate l.length true) = l.map (fun r => (r, true))
  | [] => rfl
  | r :: t => by
    simp only [List.length_cons, List.replicate, List.zip_cons_cons, List.map_cons]
    rw [zip_replicate_true t]

/-- Keeping all `count` dice: the kept values of the sorted copy sum to the
sum of the rolls. -/
theorem sorted_keep_all_sum (high : Bool) (rolls : List Int) :
    (((exchangeSort high (rolls.enum.map fun p => (p.2, p.1))).take rolls.length).map
      fun p => p.1).sum = rolls.sum := by
  have hperm := exchangeSort_perm high (rolls.enum.map fun p => (p.2, p.1))
  have hlen : (exchangeSort high (rolls.enum.map fun p => (p.2, p.1))).length
      = rolls.length := by
    rw [hperm.length_eq, List.length_map, List.enum_length]
  rw [← hlen, List.take_length]
  rw [(hperm.map fun p => p.1).sum_eq, List.map_map]
  have hcomp : ((fun p : Int × Nat => p.1) ∘ fun p : Nat × Int => (p.2, p.1)) = Prod.snd := by
    funext p; rfl
  rw [hcomp, List.enum_map_snd]

/-- Keeping all `count` dice: the selection fold marks every original index,
yielding the all-`true` flag array. -/
theorem sorted_keep_all_cover (high : Bool) (rolls : List Int) :
    ((exchangeSort high (rolls.enum.map fun p => (p.2, p.1))).take rolls.length).foldl
      (fun s p => s.set p.2 true) (List.replicate rolls.length false)
      = List.replicate rolls.length true := by
  have hperm := exchangeSort_perm high (rolls.enum.map fun p => (p.2, p.1))
  have hlen : (exchangeSort high (rolls.enum.map fun p => (p.2, p.1))).length
      = rolls.length := by
    rw [hperm.length_eq, List.length_map, List.enum_length]
  rw [← hlen, List.take_length]
  apply foldSet_replicate
  intro i hi
  rw [(hperm.map fun p => p.2).mem_iff, List.map_map]
  have hcomp : ((fun p : Int × Nat => p.2) ∘ fun p : Nat × Int => (p.2, p.1)) = Prod.fst := by
    funext p; rfl
  rw [hcomp, List.enum_map_fst, List.mem_range]
  rw [hlen] at hi
  exact hi

/-- Keep `k` of `cnt` with `k ≥ cnt`: all dice selected, full sum. -/
theorem c7_keep_all (ctx : Context) (cnt sd k : Int) (high : Bool)
    (hrng : ∀ j s, 0 ≤ ctx.rng.rollF j s) (hcnt : 0 < cnt) (hk : k ≥ cnt) :
    evaluate_dice_filter ctx cnt sd (some (keepSel high k)) =
      (appendTrace { ctx with rng := ctx.rng.advance cnt.toNat }
        ((drawList ctx.rng sd cnt.toNat).map fun r => ⟨sd, r, true⟩),
       (drawList ctx.rng sd cnt.toNat).sum) := by
  simp only [evaluate_dice_filter, rollPool_eq sd cnt.toNat ctx hrng, keepSel]
  have hact : (if k > cnt then cnt else k) = cnt := by
    split <;> omega
  have hn0 : ¬ (cnt < 0) := by omega
  have hne : ¬ (cnt = 0) := by omega
  simp only [Bool.false_and, Bool.and_false, Bool.false_eq_true, if_false, hact, hn0, hne]
  set rolls := drawList ctx.rng sd cnt.toNat with hrolls
  have hlen : rolls.length = cnt.toNat := by
    rw [hrolls]; exact drawList_length ctx.rng sd cnt.toNat
  rw [← hlen]
  rw [sorted_keep_all_cover high rolls, sorted_keep_all_sum high rolls,
    zip_replicate_true rolls, List.map_map]
  have hcomp : ((fun p : Int × Bool => ({ sides := sd, result := p.1, selected := p.2 } : TraceEntry))
      ∘ fun r : Int => (r, true)) = fun r => ({ sides := sd, result := r, selected := true } : TraceEntry) := by
    funext r; rfl
  rw [hcomp]

/-- Keep `0` of `cnt`: nothing selected, no trace, result `0`. -/
theorem c7_keep_zero (ctx : Context) (cnt sd : Int) (high : Bool)
    (hrng : ∀ j s, 0 ≤ ctx.rng.rollF j s) (hcnt : 0 < cnt) :
    evaluate_dice_filter ctx cnt sd (some (keepSel high 0)) =
      ({ ctx with rng := ctx.rng.advance cnt.toNat }, 0) := by
  simp only [evaluate_dice_filter, rollPool_eq sd cnt.toNat ctx hrng, keepSel]
  have hact : (if (0 : Int) > cnt then cnt else 0) = 0 := by
    split <;> omega
  simp only [Bool.false_and, Bool.and_false, Bool.false_eq_true, if_false, hact]
  norm_num

/-- Drop `N` of `cnt` with `0 ≤ N ≤ cnt` behaves exactly like keep
`cnt - N`. -/
theorem c7_drop_as_keep (ctx : Context) (cnt sd N : Int) (high : Bool)
    (hN0 : 0 ≤ N) (hNc : N ≤ cnt) :
    evaluate_dice_filter ctx cnt sd (some (dropSel high N)) =
      evaluate_dice_filter ctx cnt sd (some (keepSel high (cnt - N))) := by
  simp only [evaluate_dice_filter, dropSel, keepSel]
  rcases hr : rollPool ctx sd cnt.toNat with ⟨ctx1, os⟩
  rcases os with _ | rolls
  · rfl
  · have hact : (if N ≥ cnt then (0 : Int) else cnt - N)
        = (if cnt - N > cnt then cnt else cnt - N) := by
      split_ifs <;> omega
    simp only [Bool.false_and, Bool.and_false, Bool.false_eq_true, if_false, if_true, hact]

/-- Drop `N ≥ cnt`: nothing selected, no trace, result `0`. -/
theorem c7_drop_all (ctx : Context) (cnt sd N : Int) (high : Bool)
    (hrng : ∀ j s, 0 ≤ ctx.rng.rollF j s) (hN : N ≥ cnt) :
    evaluate_dice_filter ctx cnt sd (some (dropSel high N)) =
      ({ ctx with rng := ctx.rng.advance cnt.toNat }, 0) := by
  simp only [evaluate_dice_filter, rollPool_eq sd cnt.toNat ctx hrng, dropSel]
  have hact : (if N ≥ cnt then (0 : Int) else cnt - N) = 0 := by
    split <;> omega
  simp only [Bool.false_and, Bool.and_false, Bool.false_eq_true, if_false, hact]
  norm_num

/-- The claim C7 theorem: in the count-based branch of
`evaluate_dice_filter` (keep / drop selection over `cnt` rolled dice, with
an RNG that never fails), a keep of `k ≥ cnt` selects every die — the
whole roll list is traced selected — and yields the full sum of the rolls;
a keep of `0` selects nothing, traces nothing and yields `0`; a drop of
`N` with `0 ≤ N ≤ cnt` is exactly a keep of `cnt - N`; and a drop of
`N ≥ cnt` selects nothing, traces nothing and yields `0`. -/
theorem c7_count_based_keep_drop (ctx : Context) (cnt sd k N : Int) (high : Bool)
    (hrng : ∀ j s, 0 ≤ ctx.rng.rollF j s) (hcnt : 0 < cnt) :
    (k ≥ cnt →
      evaluate_dice_filter ctx cnt sd (some (keepSel high k)) =
        (appendTrace { ctx with rng := ctx.rng.advance cnt.toNat }
          ((drawList ctx.rng sd cnt.toNat).map fun r => ⟨sd, r, true⟩),
         (drawList ctx.rng sd cnt.toNat).sum)) ∧
    (evaluate_dice_filter ctx cnt sd (some (keepSel high 0)) =
      ({ ctx with rng := ctx.rng.advance cnt.toNat }, 0)) ∧
    (0 ≤ N → N ≤ cnt →
      evaluate_dice_filter ctx cnt sd (some (dropSel high N)) =
        evaluate_dice_filter ctx cnt sd (some (keepSel high (cnt - N)))) ∧
    (N ≥ cnt →
      evaluate_dice_filter ctx cnt sd (some (dropSel high N)) =
        ({ ctx with rng := ctx.rng.advance cnt.toNat }, 0)) :=
  ⟨fun hk => c7_keep_all ctx cnt sd k high hrng hcnt hk,
   c7_keep_zero ctx cnt sd high hrng hcnt,
   fun h1 h2 => c7_drop_as_keep ctx cnt sd N high h1 h2,
   fun hN => c7_drop_all ctx cnt sd N high hrng hN⟩

/-- Claim C7 witness: for `3` dice of `6` sides under the constant all-`3`
RNG, keep `5` keeps everything (the three rolls traced selected, sum `9`),
keep `0` yields `0` with no trace, drop `1` equals keep `2`, and drop `3`
yields `0` with no trace. -/
theorem c7_witness :
    evaluate_dice_filter (baseCtx (constRng 3)) 3 6 (some (keepSel true 5)) =
      (appendTrace { baseCtx (constRng 3) with rng := (constRng 3).advance (3 : Int).toNat }
        ((drawList (constRng 3) 6 (3 : Int).toNat).map fun r => ⟨6, r, true⟩),
       (drawList (constRng 3) 6 (3 : Int).toNat).sum) ∧
    evaluate_dice_filter (baseCtx (constRng 3)) 3 6 (some (keepSel true 0)) =
      ({ baseCtx (constRng 3) with rng := (constRng 3).advance (3 : Int).toNat }, 0) ∧
    evaluate_dice_filter (baseCtx (constRng 3)) 3 6 (some (dropSel true 1)) =
      evaluate_dice_filter (baseCtx (constRng 3)) 3 6 (some (keepSel true (3 - 1))) ∧
    evaluate_dice_filter (baseCtx (constRng 3)) 3 6 (some (dropSel true 3)) =
      ({ baseCtx (constRng 3) with rng := (constRng 3).advance (3 : Int).toNat }, 0) :=
  have h1 := c7_count_based_keep_drop (baseCtx (constRng 3)) 3 6 5 1 true
    (fun j s => by show (0 : Int) ≤ 3; decide) (by decide)
  have h2 := c7_count_based_keep_drop (baseCtx (constRng 3)) 3 6 5 3 true
    (fun j s => by show (0 : Int) ≤ 3; decide) (by decide)
  ⟨h1.1 (by decide), h1.2.1, h1.2.2.1 (by decide) (by decide), h2.2.2.2 (by decide)⟩
